import Mathlib

/-!
# Crazyflie sensing controller: flight-phase state machine

A shallow embedding of `controllers/crazyflie_sensing/crazyflie_sensing.cpp`
(`CCrazyflieSensing::Init`, `ControlStep`, `TakeOff`, `Land`, `Reset`).

Modelling conventions.

* `Real` is IEEE binary64 (the default ARGoS build).  A finite value of a
  sensor reading is the rational number it denotes; a computed value (`XReal`)
  is finite or an infinity.  The vector sum and difference round every
  component to nearest, ties to even (`roundReal`).  The literals `2.0f`,
  `1.0f`, `0.0f` are exact, and `0.01f` is the binary32 value
  5368709/536870912 (`altitudeTolerance`).
* `m_uiCurrentStep` is an unsigned 32-bit counter: a `Nat` below `2 ^ 32`, with
  the subtraction and the increment reduced modulo `2 ^ 32`.
* A device pointer is a `Bool` (`true`: set by `Init`, `false`: `NULL`).
  The code never tests a pointer and has no error path: dereferencing `NULL`
  is undefined behaviour, in practice the end of the process.  The model marks
  the place where the call stops with a `Fault`, together with the world as
  it was at that moment.
* The position actuator and the `LOG` stream are lists of the calls they
  received, oldest first.
-/

namespace Crazyflie

/-! ## Vectors -/

/-- The ARGoS vector type `CVector3` holding finite values: each coordinate is
the rational number its `Real` denotes. -/
structure CVector3 where
  x : ℚ
  y : ℚ
  z : ℚ
  deriving DecidableEq

/-- A value computed in `Real` arithmetic: finite, or an infinity after an
overflow. -/
inductive XReal where
  | fin (q : ℚ)
  | inf (negative : Bool)
  deriving DecidableEq

/-- A `CVector3` whose coordinates were computed in `Real` arithmetic. -/
structure XVector3 where
  x : XReal
  y : XReal
  z : XReal
  deriving DecidableEq

/-- Exponent of the binade of `q` in binary64, not below the exponent -1022 of
the subnormal range. -/
def realExponent (q : ℚ) : Int := max (Int.log 2 |q|) (-1022)

/-- Distance between neighbouring binary64 values around `q` (53 significant
bits). -/
def realUlp (q : ℚ) : ℚ := (2 : ℚ) ^ (realExponent q - 52)

/-- Nearest integer, a tie going to the even one. -/
def roundHalfEven (m : ℚ) : Int :=
  if m - ⌊m⌋ < 1 / 2 then ⌊m⌋
  else if 1 / 2 < m - ⌊m⌋ then ⌊m⌋ + 1
  else if ⌊m⌋ % 2 = 0 then ⌊m⌋ else ⌊m⌋ + 1

/-- Rounding of an exact result to `Real`: the nearest binary64 value, ties to
even, and an infinity of the sign of `q` when that value is beyond the
largest finite one. -/
def roundReal (q : ℚ) : XReal :=
  let v : ℚ := roundHalfEven (q / realUlp q) * realUlp q
  if |v| < 2 ^ 1024 then XReal.fin v else XReal.inf (decide (q < 0))

/-- Holds when `q` is a finite value of `Real`: rounding leaves it as it
is. -/
def IsReal (q : ℚ) : Prop := roundReal q = XReal.fin q

instance (q : ℚ) : Decidable (IsReal q) := inferInstanceAs (Decidable (roundReal q = XReal.fin q))

/-- Difference of a computed value and a finite one, in `Real` arithmetic: an
infinity stays the infinity it is. -/
def XReal.sub (a : XReal) (b : ℚ) : XReal :=
  match a with
  | XReal.fin q => roundReal (q - b)
  | XReal.inf s => XReal.inf s

namespace CVector3

/-- Setter `CVector3::SetX`. -/
def SetX (v : CVector3) (a : ℚ) : CVector3 := { v with x := a }

/-- Setter `CVector3::SetY`. -/
def SetY (v : CVector3) (a : ℚ) : CVector3 := { v with y := a }

/-- Setter `CVector3::SetZ`. -/
def SetZ (v : CVector3) (a : ℚ) : CVector3 := { v with z := a }

/-- Componentwise sum in `Real` arithmetic, `CVector3::operator+`. -/
def add (a b : CVector3) : XVector3 :=
  ⟨roundReal (a.x + b.x), roundReal (a.y + b.y), roundReal (a.z + b.z)⟩

/-- The finite vector seen as a computed one. -/
def toX (v : CVector3) : XVector3 := ⟨XReal.fin v.x, XReal.fin v.y, XReal.fin v.z⟩

instance : HAdd CVector3 CVector3 XVector3 := ⟨add⟩

end CVector3

/-- Componentwise difference in `Real` arithmetic, `CVector3::operator-`, of
a computed vector and a finite one. -/
def XVector3.sub (a : XVector3) (b : CVector3) : XVector3 :=
  ⟨a.x.sub b.x, a.y.sub b.y, a.z.sub b.z⟩

instance : HSub XVector3 CVector3 XVector3 := ⟨XVector3.sub⟩

/-- The literal `0.01f` of `TakeOff` and `Land`: the binary32 value nearest
to 0.01, which is 10737418 / 2 ^ 30, a little below 0.01. -/
def altitudeTolerance : ℚ := 5368709 / 536870912

/-! ## Machine integers -/

/-- Modelled from the spec: the declaration of `m_uiCurrentStep` is in
`crazyflie_sensing.h`, which is not among the sources; the spec gives
`step_count: unsigned integer`, taken here as the 32-bit `UInt32` of ARGoS.
This is the number of values of that type. -/
def UINT_RANGE : Nat := 2 ^ 32

/-- Conversion of an `int` operand to `unsigned int` (the usual arithmetic
conversion applied when the other operand is unsigned). -/
def toUInt (i : Int) : Nat := (i % (UINT_RANGE : Int)).toNat

/-- Unsigned subtraction, modulo `2 ^ 32`. -/
def subUInt (a b : Nat) : Nat := (a + UINT_RANGE - b % UINT_RANGE) % UINT_RANGE

/-- Unsigned increment `++`, modulo `2 ^ 32`. -/
def incUInt (a : Nat) : Nat := (a + 1) % UINT_RANGE

/-- The local `int nInitSteps = 10` of `ControlStep`. -/
def nInitSteps : Int := 10

/-- The local `int nTotalSteps = 400` of `ControlStep`. -/
def nTotalSteps : Int := 400

/-! ## Controller, devices and world -/

/-- The members of `CCrazyflieSensing` that `ControlStep` touches.  The
mandatory devices (`m_pcDistance`, `m_pcPropellers`, `m_pcRABA`, `m_pcRABS`)
are looked up in the outer `try` of `Init`, which rethrows when one is
missing, so a controller that went through `Init` has them set; only the two
optional device pointers are kept. -/
structure CCrazyflieSensing where
  /-- Positioning sensor pointer: `true` when set, `false` when `NULL`. -/
  m_pcPos : Bool
  /-- Battery sensor pointer: `true` when set, `false` when `NULL`. -/
  m_pcBattery : Bool
  /-- Step counter. -/
  m_uiCurrentStep : Nat
  /-- Position remembered during take-off. -/
  m_cInitialPosition : CVector3
  deriving DecidableEq

/-- A call received by the position actuator `m_pcPropellers`. -/
inductive Command where
  | SetAbsolutePosition (v : CVector3)
  | SetRelativePosition (v : XVector3)
  deriving DecidableEq

/-- One line written to `LOG`. -/
inductive LogLine where
  | Position (x y z : ℚ)
  | BatteryLevel (charge : ℚ)
  | FrontDist (d : ℚ)
  | LeftDist (d : ℚ)
  | BackDist (d : ℚ)
  | RightDist (d : ℚ)
  deriving DecidableEq

/-- What the sensors hold during one control step. -/
structure Readings where
  /-- The value of `m_pcPos->GetReading().Position`. -/
  Position : CVector3
  /-- The value of `m_pcBattery->GetReading().AvailableCharge`. -/
  AvailableCharge : ℚ
  /-- The value of `m_pcDistance->GetReadingsMap()`: (key, distance) pairs in
  the iteration order of the map. -/
  ReadingsMap : List (ℚ × ℚ)

/-- The controller together with everything it has sent out. -/
structure World where
  ctrl : CCrazyflieSensing
  /-- Calls received by `m_pcPropellers`, oldest first. -/
  cmds : List Command
  /-- Lines written to `LOG`, oldest first. -/
  log : List LogLine
  deriving DecidableEq

/-- The place where a call stopped because it dereferenced a `NULL` device
pointer.  The code raises no error there: the dereference is undefined
behaviour, in practice the end of the process. -/
inductive Fault where
  | nullPositioningSensor
  | nullBatterySensor
  deriving DecidableEq

/-- Result of running controller code: the value returned, or the place where
the call stopped at a `NULL` dereference, with the world as it was then (what
had been sent to the actuator and to `LOG`, and the members as last written). -/
abbrev Exec (α : Type) := Except (Fault × World) α

/-- The call `m_pcPropellers->SetAbsolutePosition(v)`. -/
def World.SetAbsolutePosition (w : World) (v : CVector3) : World :=
  { w with cmds := w.cmds ++ [Command.SetAbsolutePosition v] }

/-- The call `m_pcPropellers->SetRelativePosition(v)`. -/
def World.SetRelativePosition (w : World) (v : XVector3) : World :=
  { w with cmds := w.cmds ++ [Command.SetRelativePosition v] }

/-- One `LOG << ... << std::endl` statement. -/
def World.LOG (w : World) (l : LogLine) : World :=
  { w with log := w.log ++ [l] }

/-- The expression `m_pcPos->GetReading().Position`.  The code evaluates it
without testing `m_pcPos`; with the pointer `NULL` the call stops here. -/
def getPosition (rd : Readings) (w : World) : Exec CVector3 :=
  if w.ctrl.m_pcPos then .ok rd.Position
  else .error (Fault.nullPositioningSensor, w)

/-- The expression `m_pcBattery->GetReading().AvailableCharge`.  The code
evaluates it without testing `m_pcBattery`; with the pointer `NULL` the call
stops here. -/
def getAvailableCharge (rd : Readings) (w : World) : Exec ℚ :=
  if w.ctrl.m_pcBattery then .ok rd.AvailableCharge
  else .error (Fault.nullBatterySensor, w)

/-! ## The controller's operations -/

/-- The constructor `CCrazyflieSensing::CCrazyflieSensing()`: every pointer
`NULL`, the counter 0, the position default-constructed (the zero vector). -/
def CCrazyflieSensing.new : CCrazyflieSensing :=
  { m_pcPos := false, m_pcBattery := false, m_uiCurrentStep := 0,
    m_cInitialPosition := ⟨0, 0, 0⟩ }

/-- Method `CCrazyflieSensing::Reset`: the body is empty. -/
def Reset (c : CCrazyflieSensing) : CCrazyflieSensing := c

/-- The devices the robot offers to `GetSensor` / `GetActuator`. -/
structure Robot where
  crazyflie_distance_scanner : Bool
  quadrotor_position : Bool
  range_and_bearing_actuator : Bool
  range_and_bearing_sensor : Bool
  positioning : Bool
  battery : Bool

/-- Method `CCrazyflieSensing::Init`.  A missing mandatory device makes the
lookup throw, which `Init` rethrows (`none`); a missing positioning or battery
sensor is caught and ignored, leaving the pointer as it was.  Then the counter
is zeroed and `Reset` is called.  The random number generator created here is
not used by `ControlStep` and is left out. -/
def Init (r : Robot) (c : CCrazyflieSensing) : Option CCrazyflieSensing :=
  if r.crazyflie_distance_scanner && r.quadrotor_position
      && r.range_and_bearing_actuator && r.range_and_bearing_sensor then
    let c := if r.positioning then { c with m_pcPos := true } else c
    let c := if r.battery then { c with m_pcBattery := true } else c
    let c := { c with m_uiCurrentStep := 0 }
    some (Reset c)
  else none

/-- Method `CCrazyflieSensing::TakeOff`: no command and `false` when the
altitude is within `0.01f` of 2.0, otherwise the absolute command to the
current position with the altitude set to 2.0, and `true`.  The difference
`cPos.GetZ() - 2.0f` is taken exactly: for a binary64 altitude the rounded
difference is below `0.01f` exactly when the exact one is (the difference of
two values within a factor two of each other is exact, and rounding is
monotone and keeps `0.01f`). -/
def TakeOff (rd : Readings) (w : World) : Exec (Bool × World) := do
  let cPos ← getPosition rd w
  if |cPos.z - 2| < altitudeTolerance then
    pure (false, w)
  else
    let cPos := cPos.SetZ 2
    pure (true, w.SetAbsolutePosition cPos)

/-- Method `CCrazyflieSensing::Land`: no command and `false` when the altitude
is within `0.01f` of 0, otherwise the absolute command to the current position
with the altitude set to 0, and `true`. -/
def Land (rd : Readings) (w : World) : Exec (Bool × World) := do
  let cPos ← getPosition rd w
  if |cPos.z| < altitudeTolerance then
    pure (false, w)
  else
    let cPos := cPos.SetZ 0
    pure (true, w.SetAbsolutePosition cPos)

/-- The three branches of the `if` / `else if` / `else` chain of
`ControlStep`. -/
inductive Phase where
  | Takeoff
  | SquareTraverse
  | Land
  deriving DecidableEq

/-- Which branch of `ControlStep` runs: the tests
`m_uiCurrentStep < nInitSteps` and
`(m_uiCurrentStep - nInitSteps) < nTotalSteps`, in unsigned arithmetic. -/
def ControlStep_phase (m_uiCurrentStep : Nat) : Phase :=
  if m_uiCurrentStep < toUInt nInitSteps then Phase.Takeoff
  else if subUInt m_uiCurrentStep (toUInt nInitSteps) < toUInt nTotalSteps then
    Phase.SquareTraverse
  else Phase.Land

/-- The vector `trans` built in the square-pattern branch of `ControlStep`:
the zero vector with one coordinate set, chosen by comparing
`m_uiCurrentStep - nInitSteps` with `nTotalSteps/4`, `2*nTotalSteps/4` and
`3*nTotalSteps/4` (integer division, then conversion to unsigned). -/
def ControlStep_trans (m_uiCurrentStep : Nat) : CVector3 :=
  let trans : CVector3 := ⟨0, 0, 0⟩
  if subUInt m_uiCurrentStep (toUInt nInitSteps) < toUInt (Int.tdiv nTotalSteps 4) then
    trans.SetX 1
  else if subUInt m_uiCurrentStep (toUInt nInitSteps)
      < toUInt (Int.tdiv (2 * nTotalSteps) 4) then
    trans.SetY 1
  else if subUInt m_uiCurrentStep (toUInt nInitSteps)
      < toUInt (Int.tdiv (3 * nTotalSteps) 4) then
    trans.SetX (-1)
  else
    trans.SetY (-1)

/-- The distance-sensor printout of `ControlStep`: four lines when the map has
exactly four entries, nothing otherwise. -/
def logDistances (w : World) (sDistRead : List (ℚ × ℚ)) : World :=
  match sDistRead with
  | [a, b, c, d] =>
    (((w.LOG (LogLine.FrontDist a.2)).LOG (LogLine.LeftDist b.2)).LOG
      (LogLine.BackDist c.2)).LOG (LogLine.RightDist d.2)
  | _ => w

/-- The phase-dependent first part of `ControlStep` (the `if` chain). -/
def ControlStep_act (rd : Readings) (w : World) : Exec World :=
  match ControlStep_phase w.ctrl.m_uiCurrentStep with
  | Phase.Takeoff => do
    let (_, w) ← TakeOff rd w
    let p ← getPosition rd w
    pure { w with ctrl := { w.ctrl with m_cInitialPosition := p } }
  | Phase.SquareTraverse => do
    let trans := ControlStep_trans w.ctrl.m_uiCurrentStep
    let currentPosition ← getPosition rd w
    let relativePositionCommand := (w.ctrl.m_cInitialPosition + trans) - currentPosition
    pure (w.SetRelativePosition relativePositionCommand)
  | Phase.Land => do
    let (_, w) ← Land rd w
    pure w

/-- Method `CCrazyflieSensing::ControlStep`: the branch, then the position,
battery and distance printouts, then the increment of the counter. -/
def ControlStep (rd : Readings) (w : World) : Exec World := do
  let w ← ControlStep_act rd w
  let p ← getPosition rd w
  let w := w.LOG (LogLine.Position p.x p.y p.z)
  let charge ← getAvailableCharge rd w
  let w := w.LOG (LogLine.BatteryLevel charge)
  let w := logDistances w rd.ReadingsMap
  pure { w with ctrl := { w.ctrl with m_uiCurrentStep := incUInt w.ctrl.m_uiCurrentStep } }

/-- The world when a call ends, whether it returned or faulted. -/
def Exec.world : Exec World → World
  | .ok w => w
  | .error (_, w) => w

/-- The world a freshly initialised controller starts from. -/
def World.start (c : CCrazyflieSensing) : World := { ctrl := c, cmds := [], log := [] }

/-- Runs `ControlStep` once per element of `rds`, in order, stopping at the
first fault. -/
def run : List Readings → World → Exec World
  | [], w => .ok w
  | rd :: rds, w => do
    let w ← ControlStep rd w
    run rds w

/-- Position of a branch in the order take-off, square pattern, landing. -/
def Phase.rank : Phase → Nat
  | Phase.Takeoff => 0
  | Phase.SquareTraverse => 1
  | Phase.Land => 2

/-- The branches taken by the calls of `run rds w`, one per call made, in
order; the list ends with the call that faults, when one does. -/
def phases : List Readings → World → List Phase
  | [], _ => []
  | rd :: rds, w =>
    ControlStep_phase w.ctrl.m_uiCurrentStep ::
      (match ControlStep rd w with
       | .ok w1 => phases rds w1
       | .error _ => [])

/-! ## Arithmetic of the tests -/

theorem toUInt_nInitSteps : toUInt nInitSteps = 10 := by decide

theorem toUInt_nTotalSteps : toUInt nTotalSteps = 400 := by decide

theorem toUInt_quarter : toUInt (Int.tdiv nTotalSteps 4) = 100 := by decide

theorem toUInt_half : toUInt (Int.tdiv (2 * nTotalSteps) 4) = 200 := by decide

theorem toUInt_three_quarters : toUInt (Int.tdiv (3 * nTotalSteps) 4) = 300 := by decide

theorem subUInt_of_le {a b : Nat} (hb : b ≤ a) (ha : a < UINT_RANGE) :
    subUInt a b = a - b := by
  unfold subUInt
  unfold UINT_RANGE at *
  have hb' : b % 2 ^ 32 = b := Nat.mod_eq_of_lt (by omega)
  rw [hb']
  omega

/-- The branch test of `ControlStep`, over the mathematical integers. -/
theorem ControlStep_phase_eq (n : Nat) (hn : n < UINT_RANGE) :
    ControlStep_phase n =
      if n < 10 then Phase.Takeoff
      else if n < 410 then Phase.SquareTraverse else Phase.Land := by
  unfold ControlStep_phase
  rw [toUInt_nInitSteps, toUInt_nTotalSteps]
  by_cases h : n < 10
  · simp [h]
  · rw [subUInt_of_le (by omega) hn]
    simp only [h, if_false]
    by_cases h2 : n < 410
    · have : n - 10 < 400 := by omega
      simp [h2, this]
    · have : ¬ n - 10 < 400 := by omega
      simp [h2, this]

/-- The translation of `ControlStep`, over the mathematical integers. -/
theorem ControlStep_trans_eq (n : Nat) (h10 : 10 ≤ n) (hn : n < UINT_RANGE) :
    ControlStep_trans n =
      if n - 10 < 100 then ⟨1, 0, 0⟩
      else if n - 10 < 200 then ⟨0, 1, 0⟩
      else if n - 10 < 300 then ⟨-1, 0, 0⟩
      else ⟨0, -1, 0⟩ := by
  unfold ControlStep_trans
  rw [toUInt_nInitSteps, toUInt_quarter, toUInt_half, toUInt_three_quarters,
    subUInt_of_le h10 hn]
  simp only [CVector3.SetX, CVector3.SetY]

theorem ControlStep_phase_takeoff {n : Nat} (h : n < 10) :
    ControlStep_phase n = Phase.Takeoff := by
  rw [ControlStep_phase_eq n (by unfold UINT_RANGE; omega)]
  simp [h]

theorem ControlStep_phase_square {n : Nat} (h10 : 10 ≤ n) (h410 : n < 410) :
    ControlStep_phase n = Phase.SquareTraverse := by
  rw [ControlStep_phase_eq n (by unfold UINT_RANGE; omega)]
  have : ¬ n < 10 := by omega
  simp [this, h410]

theorem ControlStep_phase_land {n : Nat} (h410 : 410 ≤ n) (hn : n < UINT_RANGE) :
    ControlStep_phase n = Phase.Land := by
  rw [ControlStep_phase_eq n hn]
  have h1 : ¬ n < 10 := by omega
  have h2 : ¬ n < 410 := by omega
  simp [h1, h2]

/-! ## Effect of each branch -/

theorem ok_bind {α β : Type} (a : α) (f : α → Exec β) :
    ((Except.ok a : Exec α) >>= f) = f a := rfl

theorem error_bind {α β : Type} (e : Fault × World) (f : α → Exec β) :
    ((Except.error e : Exec α) >>= f) = Except.error e := rfl

theorem pure_eq_ok {α : Type} (a : α) : (pure a : Exec α) = Except.ok a := rfl

theorem getPosition_ok (rd : Readings) (w : World) (hp : w.ctrl.m_pcPos = true) :
    getPosition rd w = .ok rd.Position := by
  simp [getPosition, hp]

theorem TakeOff_ok (rd : Readings) (w : World) (hp : w.ctrl.m_pcPos = true) :
    TakeOff rd w =
      if |rd.Position.z - 2| < altitudeTolerance then .ok (false, w)
      else .ok (true, w.SetAbsolutePosition ⟨rd.Position.x, rd.Position.y, 2⟩) := by
  unfold TakeOff
  rw [getPosition_ok rd w hp]
  by_cases h : |rd.Position.z - 2| < altitudeTolerance
  · simp only [ok_bind, pure_eq_ok, h, if_true]
  · simp only [ok_bind, pure_eq_ok, h, if_false, CVector3.SetZ]

theorem Land_ok (rd : Readings) (w : World) (hp : w.ctrl.m_pcPos = true) :
    Land rd w =
      if |rd.Position.z| < altitudeTolerance then .ok (false, w)
      else .ok (true, w.SetAbsolutePosition ⟨rd.Position.x, rd.Position.y, 0⟩) := by
  unfold Land
  rw [getPosition_ok rd w hp]
  by_cases h : |rd.Position.z| < altitudeTolerance
  · simp only [ok_bind, pure_eq_ok, h, if_true]
  · simp only [ok_bind, pure_eq_ok, h, if_false, CVector3.SetZ]

theorem LOG_ctrl (w : World) (l : LogLine) : (w.LOG l).ctrl = w.ctrl := rfl

theorem LOG_cmds (w : World) (l : LogLine) : (w.LOG l).cmds = w.cmds := rfl

theorem logDistances_ctrl (w : World) (l : List (ℚ × ℚ)) :
    (logDistances w l).ctrl = w.ctrl := by
  unfold logDistances
  split <;> rfl

theorem logDistances_cmds (w : World) (l : List (ℚ × ℚ)) :
    (logDistances w l).cmds = w.cmds := by
  unfold logDistances
  split <;> rfl

/-- The take-off branch, with the positioning sensor set. -/
theorem ControlStep_act_takeoff (rd : Readings) (w : World)
    (hph : ControlStep_phase w.ctrl.m_uiCurrentStep = Phase.Takeoff)
    (hp : w.ctrl.m_pcPos = true) :
    ControlStep_act rd w =
      .ok { ctrl := { w.ctrl with m_cInitialPosition := rd.Position },
            cmds := if |rd.Position.z - 2| < altitudeTolerance then w.cmds
              else w.cmds ++
                [Command.SetAbsolutePosition ⟨rd.Position.x, rd.Position.y, 2⟩],
            log := w.log } := by
  unfold ControlStep_act
  rw [hph]
  simp only [TakeOff_ok rd w hp]
  by_cases h : |rd.Position.z - 2| < altitudeTolerance
  · simp only [h, if_true, ok_bind, pure_eq_ok, getPosition_ok rd w hp]
  · simp only [h, if_false, ok_bind, pure_eq_ok]
    rw [getPosition_ok rd _ (by simpa [World.SetAbsolutePosition] using hp)]
    simp only [ok_bind, World.SetAbsolutePosition]

/-- The square-pattern branch, with the positioning sensor set. -/
theorem ControlStep_act_square (rd : Readings) (w : World)
    (hph : ControlStep_phase w.ctrl.m_uiCurrentStep = Phase.SquareTraverse)
    (hp : w.ctrl.m_pcPos = true) :
    ControlStep_act rd w =
      .ok { ctrl := w.ctrl,
            cmds := w.cmds ++ [Command.SetRelativePosition
              ((w.ctrl.m_cInitialPosition + ControlStep_trans w.ctrl.m_uiCurrentStep)
                - rd.Position)],
            log := w.log } := by
  unfold ControlStep_act
  rw [hph]
  simp only [getPosition_ok rd w hp, ok_bind, pure_eq_ok, World.SetRelativePosition]

/-- The landing branch, with the positioning sensor set. -/
theorem ControlStep_act_land (rd : Readings) (w : World)
    (hph : ControlStep_phase w.ctrl.m_uiCurrentStep = Phase.Land)
    (hp : w.ctrl.m_pcPos = true) :
    ControlStep_act rd w =
      .ok { ctrl := w.ctrl,
            cmds := if |rd.Position.z| < altitudeTolerance then w.cmds
              else w.cmds ++
                [Command.SetAbsolutePosition ⟨rd.Position.x, rd.Position.y, 0⟩],
            log := w.log } := by
  unfold ControlStep_act
  rw [hph]
  simp only [Land_ok rd w hp]
  by_cases h : |rd.Position.z| < altitudeTolerance
  · simp only [h, if_true, ok_bind, pure_eq_ok]
  · simp only [h, if_false, ok_bind, pure_eq_ok, World.SetAbsolutePosition]

/-- Every branch faults at once, before touching anything, when the
positioning sensor pointer is `NULL`. -/
theorem ControlStep_act_null (rd : Readings) (w : World)
    (hp : w.ctrl.m_pcPos = false) :
    ControlStep_act rd w = .error (Fault.nullPositioningSensor, w) := by
  unfold ControlStep_act
  have hg : getPosition rd w = .error (Fault.nullPositioningSensor, w) := by
    simp [getPosition, hp]
  cases ControlStep_phase w.ctrl.m_uiCurrentStep
  · simp only [TakeOff, hg, error_bind]
  · simp only [hg, error_bind]
  · simp only [Land, hg, error_bind]

/-- The part of `ControlStep` after the branch: the printouts and the
increment. -/
theorem ControlStep_after_act (rd : Readings) (w w1 : World)
    (hact : ControlStep_act rd w = .ok w1) (hp : w1.ctrl.m_pcPos = true) :
    ControlStep rd w =
      if w1.ctrl.m_pcBattery = true then
        .ok { ctrl := { w1.ctrl with m_uiCurrentStep := incUInt w1.ctrl.m_uiCurrentStep },
              cmds := w1.cmds,
              log := (logDistances
                ((w1.LOG (LogLine.Position rd.Position.x rd.Position.y rd.Position.z)).LOG
                  (LogLine.BatteryLevel rd.AvailableCharge)) rd.ReadingsMap).log }
      else
        .error (Fault.nullBatterySensor,
          w1.LOG (LogLine.Position rd.Position.x rd.Position.y rd.Position.z)) := by
  unfold ControlStep
  rw [hact]
  simp only [ok_bind, getPosition_ok rd w1 hp, getAvailableCharge, LOG_ctrl]
  by_cases hb : w1.ctrl.m_pcBattery = true
  · simp [hb, ok_bind, pure_eq_ok, logDistances_ctrl, logDistances_cmds, LOG_ctrl, LOG_cmds]
  · simp [hb, error_bind]

/-! ## Rounding and the vector operations -/

theorem realExponent_eq {q : ℚ} {e : ℤ} (h1 : (2 : ℚ) ^ e ≤ |q|)
    (h2 : |q| < (2 : ℚ) ^ (e + 1)) (he : -1022 ≤ e) : realExponent q = e := by
  have hpos : 0 < |q| := lt_of_lt_of_le (by positivity) h1
  have hlog : Int.log 2 |q| = e := by
    apply le_antisymm
    · have := (Int.lt_zpow_iff_log_lt (b := 2) (by norm_num) (x := e + 1) hpos).mp
        (by simpa using h2)
      omega
    · exact (Int.zpow_le_iff_le_log (b := 2) (by norm_num) hpos).mp (by simpa using h1)
  unfold realExponent
  rw [hlog]
  exact max_eq_left he

/-- Rounding of a value in the binade of exponent `e`: the nearest multiple
of `2 ^ (e - 52)`. -/
theorem roundReal_eval {q : ℚ} {e n : ℤ} (h1 : (2 : ℚ) ^ e ≤ |q|)
    (h2 : |q| < (2 : ℚ) ^ (e + 1)) (he : -1022 ≤ e)
    (hn : roundHalfEven (q / (2 : ℚ) ^ (e - 52)) = n)
    (hfin : |(n : ℚ) * (2 : ℚ) ^ (e - 52)| < 2 ^ 1024) :
    roundReal q = XReal.fin (n * (2 : ℚ) ^ (e - 52)) := by
  unfold roundReal realUlp
  rw [realExponent_eq h1 h2 he]
  simp only [hn]
  rw [if_pos hfin]

theorem roundHalfEven_intCast (k : ℤ) : roundHalfEven (k : ℚ) = k := by
  simp [roundHalfEven]

theorem roundHalfEven_tie_even (k : ℤ) (hk : k % 2 = 0) :
    roundHalfEven ((k : ℚ) + 1 / 2) = k := by
  have hf : ⌊(k : ℚ) + 1 / 2⌋ = k := by
    rw [Int.floor_eq_iff]
    constructor <;> norm_num
  unfold roundHalfEven
  rw [hf]
  have h1 : ¬ ((k : ℚ) + 1 / 2 - k < 1 / 2) := by norm_num
  have h2 : ¬ ((1 : ℚ) / 2 < (k : ℚ) + 1 / 2 - k) := by norm_num
  simp only [h1, h2, hk, if_true, if_false]

theorem roundReal_zero : roundReal 0 = XReal.fin 0 := by
  simp [roundReal, roundHalfEven]

theorem roundReal_one : roundReal 1 = XReal.fin 1 := by
  have h := roundReal_eval (q := 1) (e := 0) (n := 2 ^ 52) (by norm_num) (by norm_num)
    (by norm_num)
    (by have : (1 : ℚ) / (2 : ℚ) ^ ((0 : ℤ) - 52) = ((2 ^ 52 : ℤ) : ℚ) := by norm_num
        rw [this, roundHalfEven_intCast])
    (by norm_num)
  rw [h]
  norm_num

theorem roundReal_neg_one : roundReal (-1) = XReal.fin (-1) := by
  have h := roundReal_eval (q := -1) (e := 0) (n := -2 ^ 52) (by norm_num) (by norm_num)
    (by norm_num)
    (by have : (-1 : ℚ) / (2 : ℚ) ^ ((0 : ℤ) - 52) = ((-2 ^ 52 : ℤ) : ℚ) := by norm_num
        rw [this, roundHalfEven_intCast])
    (by norm_num)
  rw [h]
  norm_num

theorem roundReal_two : roundReal 2 = XReal.fin 2 := by
  have h := roundReal_eval (q := 2) (e := 1) (n := 2 ^ 52) (by norm_num) (by norm_num)
    (by norm_num)
    (by have : (2 : ℚ) / (2 : ℚ) ^ ((1 : ℤ) - 52) = ((2 ^ 52 : ℤ) : ℚ) := by norm_num
        rw [this, roundHalfEven_intCast])
    (by norm_num)
  rw [h]
  norm_num

theorem roundReal_two_pow_53 : roundReal (2 ^ 53) = XReal.fin (2 ^ 53) := by
  have h := roundReal_eval (q := 2 ^ 53) (e := 53) (n := 2 ^ 52) (by norm_num) (by norm_num)
    (by norm_num)
    (by have : (2 ^ 53 : ℚ) / (2 : ℚ) ^ ((53 : ℤ) - 52) = ((2 ^ 52 : ℤ) : ℚ) := by norm_num
        rw [this, roundHalfEven_intCast])
    (by norm_num)
  rw [h]
  norm_num

/-- The sum 2^53 + 1 is half way between two binary64 values and rounds to
the even one, 2^53. -/
theorem roundReal_two_pow_53_add_one : roundReal (2 ^ 53 + 1) = XReal.fin (2 ^ 53) := by
  have h := roundReal_eval (q := 2 ^ 53 + 1) (e := 53) (n := 2 ^ 52) (by norm_num)
    (by norm_num) (by norm_num)
    (by have : (2 ^ 53 + 1 : ℚ) / (2 : ℚ) ^ ((53 : ℤ) - 52)
          = ((2 ^ 52 : ℤ) : ℚ) + 1 / 2 := by norm_num
        rw [this, roundHalfEven_tie_even _ (by decide)])
    (by norm_num)
  rw [h]
  norm_num

theorem CVector3.add_def (a b : CVector3) :
    (a + b : XVector3) =
      XVector3.mk (roundReal (a.x + b.x)) (roundReal (a.y + b.y)) (roundReal (a.z + b.z)) :=
  rfl

theorem XVector3.sub_def (a : XVector3) (b : CVector3) :
    (a - b : XVector3) = XVector3.mk (a.x.sub b.x) (a.y.sub b.y) (a.z.sub b.z) := rfl

theorem XReal.fin_sub (q b : ℚ) : (XReal.fin q).sub b = roundReal (q - b) := rfl

/-- A finite vector minus itself is the zero vector. -/
theorem CVector3.toX_sub_self (p : CVector3) :
    (p.toX - p : XVector3) = CVector3.toX ⟨0, 0, 0⟩ := by
  simp [XVector3.sub_def, CVector3.toX, XReal.fin_sub, roundReal_zero]

/-- When no component is changed by either rounding, the value computed for
`(r + tr) - p` is the exact one. -/
theorem CVector3.add_sub_exact (r tr p : CVector3)
    (hs : IsReal (r.x + tr.x) ∧ IsReal (r.y + tr.y) ∧ IsReal (r.z + tr.z))
    (hd : IsReal (r.x + tr.x - p.x) ∧ IsReal (r.y + tr.y - p.y) ∧
      IsReal (r.z + tr.z - p.z)) :
    ((r + tr : XVector3) - p : XVector3) =
      CVector3.toX ⟨r.x + tr.x - p.x, r.y + tr.y - p.y, r.z + tr.z - p.z⟩ := by
  obtain ⟨hsx, hsy, hsz⟩ := hs
  obtain ⟨hdx, hdy, hdz⟩ := hd
  unfold IsReal at hsx hsy hsz hdx hdy hdz
  simp only [CVector3.add_def, XVector3.sub_def, CVector3.toX, hsx, hsy, hsz,
    XReal.fin_sub, hdx, hdy, hdz]

/-- The commands a call of `ControlStep` leaves at the actuator are those its
branch left there. -/
theorem ControlStep_world_cmds (rd : Readings) (w w1 : World)
    (hact : ControlStep_act rd w = .ok w1) (hp : w1.ctrl.m_pcPos = true) :
    (ControlStep rd w).world.cmds = w1.cmds := by
  rw [ControlStep_after_act rd w w1 hact hp]
  by_cases hb : w1.ctrl.m_pcBattery = true
  · simp [hb, Exec.world]
  · simp [hb, Exec.world, LOG_cmds]

/-! ## Phase selection and the square pattern -/

/-- C1: the branch of `ControlStep` that runs is fixed by the step counter at
entry alone (the selecting function takes no reading): for every counter value
below 10 it is the take-off branch, from 10 up to 409 the square-pattern
branch, and from 410 on the landing branch. -/
theorem C1_phase_selection (n : Nat) (hn : n < UINT_RANGE) :
    (n < 10 → ControlStep_phase n = Phase.Takeoff) ∧
    (10 ≤ n → n < 410 → ControlStep_phase n = Phase.SquareTraverse) ∧
    (410 ≤ n → ControlStep_phase n = Phase.Land) := by
  exact ⟨fun h => ControlStep_phase_takeoff h, fun h1 h2 => ControlStep_phase_square h1 h2,
    fun h => ControlStep_phase_land h hn⟩

/-- C1 at the four boundary values 9, 10, 409 and 410. -/
theorem C1_phase_selection_witness :
    ControlStep_phase 9 = Phase.Takeoff ∧
    ControlStep_phase 10 = Phase.SquareTraverse ∧
    ControlStep_phase 409 = Phase.SquareTraverse ∧
    ControlStep_phase 410 = Phase.Land :=
  ⟨(C1_phase_selection 9 (by decide)).1 (by decide),
   (C1_phase_selection 10 (by decide)).2.1 (by decide) (by decide),
   (C1_phase_selection 409 (by decide)).2.1 (by decide) (by decide),
   (C1_phase_selection 410 (by decide)).2.2 (by decide)⟩

/-- The translation chosen `t` steps after the start of the square pattern. -/
theorem ControlStep_trans_offset (t : Nat) (ht : t < 400) :
    ControlStep_trans (t + 10) =
      if t < 100 then ⟨1, 0, 0⟩
      else if t < 200 then ⟨0, 1, 0⟩
      else if t < 300 then ⟨-1, 0, 0⟩
      else ⟨0, -1, 0⟩ := by
  have hn : t + 10 < UINT_RANGE := by unfold UINT_RANGE; omega
  rw [ControlStep_trans_eq (t + 10) (by omega) hn, Nat.add_sub_cancel]

theorem ControlStep_trans_ten : ControlStep_trans 10 = ⟨1, 0, 0⟩ :=
  ControlStep_trans_offset 0 (by decide)

theorem isReal_zero : IsReal 0 := roundReal_zero

theorem isReal_one : IsReal 1 := roundReal_one

theorem isReal_two : IsReal 2 := roundReal_two

theorem isReal_neg_one : IsReal (-1) := roundReal_neg_one

/-- C2 fails as stated: at counter 10 with reference position (2^53, 0, 0) and
current position (0,0,0), the sum of the reference position and the
translation (1,0,0) rounds to (2^53, 0, 0); the command sent is
(2^53, 0, 0), which is not `(r + tr) - p` = (2^53 + 1, 0, 0), and the current
position plus the command is not `r + tr`. -/
theorem C2_rounding_counterexample :
    (ControlStep ⟨⟨0, 0, 0⟩, 1, []⟩ ⟨⟨true, true, 10, ⟨2 ^ 53, 0, 0⟩⟩, [], []⟩).world.cmds
      = [Command.SetRelativePosition (CVector3.toX ⟨2 ^ 53, 0, 0⟩)] ∧
    (⟨2 ^ 53, 0, 0⟩ : CVector3) ≠
      ⟨2 ^ 53 + (ControlStep_trans 10).x - 0, 0 + (ControlStep_trans 10).y - 0,
        0 + (ControlStep_trans 10).z - 0⟩ ∧
    (0 : ℚ) + 2 ^ 53 ≠ 2 ^ 53 + (ControlStep_trans 10).x := by
  refine ⟨?_, ?_, ?_⟩
  · rw [ControlStep_world_cmds _ _ _
      (ControlStep_act_square _ _ (ControlStep_phase_square (by decide) (by decide)) rfl) rfl]
    show [] ++ [Command.SetRelativePosition
      (((⟨2 ^ 53, 0, 0⟩ : CVector3) + ControlStep_trans 10 : XVector3) - (⟨0, 0, 0⟩ : CVector3))]
      = _
    rw [ControlStep_trans_ten]
    simp only [CVector3.add_def, XVector3.sub_def, CVector3.toX, add_zero,
      roundReal_two_pow_53_add_one, roundReal_zero, XReal.fin_sub, sub_zero,
      roundReal_two_pow_53, List.nil_append]
  · rw [ControlStep_trans_ten]
    norm_num
  · rw [ControlStep_trans_ten]
    norm_num

/-- C2, amended: in every square-pattern step (counter from 10 to 409,
positioning sensor set), with reference position `r`, current position `p` and
the leg translation `tr` of that step, `ControlStep` sends exactly the relative
command `(r + tr) - p` as computed in `Real` arithmetic, each of the two
vector operations rounding every component; and when no component is changed
by either rounding, the command sent is the exact `(r + tr) - p`, so that `p`
plus the command is `r + tr`. -/
theorem C2_square_relative_command (rd : Readings) (w : World)
    (h10 : 10 ≤ w.ctrl.m_uiCurrentStep) (h410 : w.ctrl.m_uiCurrentStep < 410)
    (hp : w.ctrl.m_pcPos = true) :
    (ControlStep rd w).world.cmds =
      w.cmds ++ [Command.SetRelativePosition
        ((w.ctrl.m_cInitialPosition + ControlStep_trans w.ctrl.m_uiCurrentStep : XVector3)
          - rd.Position)] ∧
    (IsReal (w.ctrl.m_cInitialPosition.x + (ControlStep_trans w.ctrl.m_uiCurrentStep).x) ∧
      IsReal (w.ctrl.m_cInitialPosition.y + (ControlStep_trans w.ctrl.m_uiCurrentStep).y) ∧
      IsReal (w.ctrl.m_cInitialPosition.z + (ControlStep_trans w.ctrl.m_uiCurrentStep).z) →
     IsReal (w.ctrl.m_cInitialPosition.x + (ControlStep_trans w.ctrl.m_uiCurrentStep).x
        - rd.Position.x) ∧
      IsReal (w.ctrl.m_cInitialPosition.y + (ControlStep_trans w.ctrl.m_uiCurrentStep).y
        - rd.Position.y) ∧
      IsReal (w.ctrl.m_cInitialPosition.z + (ControlStep_trans w.ctrl.m_uiCurrentStep).z
        - rd.Position.z) →
     ∃ c : CVector3,
       (ControlStep rd w).world.cmds = w.cmds ++ [Command.SetRelativePosition c.toX] ∧
       c = ⟨w.ctrl.m_cInitialPosition.x + (ControlStep_trans w.ctrl.m_uiCurrentStep).x
              - rd.Position.x,
            w.ctrl.m_cInitialPosition.y + (ControlStep_trans w.ctrl.m_uiCurrentStep).y
              - rd.Position.y,
            w.ctrl.m_cInitialPosition.z + (ControlStep_trans w.ctrl.m_uiCurrentStep).z
              - rd.Position.z⟩ ∧
       rd.Position.x + c.x =
         w.ctrl.m_cInitialPosition.x + (ControlStep_trans w.ctrl.m_uiCurrentStep).x ∧
       rd.Position.y + c.y =
         w.ctrl.m_cInitialPosition.y + (ControlStep_trans w.ctrl.m_uiCurrentStep).y ∧
       rd.Position.z + c.z =
         w.ctrl.m_cInitialPosition.z + (ControlStep_trans w.ctrl.m_uiCurrentStep).z) := by
  have hph := ControlStep_phase_square h10 h410
  have hcmd := ControlStep_world_cmds rd w _ (ControlStep_act_square rd w hph hp) hp
  refine ⟨hcmd, fun hs hd => ⟨_, ?_, rfl, ?_, ?_, ?_⟩⟩
  · rw [hcmd, CVector3.add_sub_exact _ _ _ hs hd]
  · ring
  · ring
  · ring

/-- C2, amended, at counter 10 with reference position (0,0,2) and current
position (0,0,2), where both operations are exact: the relative command is
(1,0,0). -/
theorem C2_square_relative_command_witness :
    (ControlStep ⟨⟨0, 0, 2⟩, 1, []⟩ ⟨⟨true, true, 10, ⟨0, 0, 2⟩⟩, [], []⟩).world.cmds
      = [Command.SetRelativePosition (CVector3.toX ⟨1, 0, 0⟩)] := by
  obtain ⟨c, hc, hval, -⟩ := (C2_square_relative_command ⟨⟨0, 0, 2⟩, 1, []⟩
    ⟨⟨true, true, 10, ⟨0, 0, 2⟩⟩, [], []⟩ (by decide) (by decide) rfl).2
    (by show IsReal (0 + (ControlStep_trans 10).x) ∧ IsReal (0 + (ControlStep_trans 10).y) ∧
          IsReal (2 + (ControlStep_trans 10).z)
        rw [ControlStep_trans_ten]
        norm_num
        exact ⟨isReal_one, isReal_zero, isReal_two⟩)
    (by show IsReal (0 + (ControlStep_trans 10).x - 0) ∧
          IsReal (0 + (ControlStep_trans 10).y - 0) ∧
          IsReal (2 + (ControlStep_trans 10).z - 2)
        rw [ControlStep_trans_ten]
        norm_num
        exact ⟨isReal_one, isReal_zero⟩)
  rw [hc, hval]
  show [] ++ [Command.SetRelativePosition (CVector3.toX
    ⟨0 + (ControlStep_trans 10).x - 0, 0 + (ControlStep_trans 10).y - 0,
      2 + (ControlStep_trans 10).z - 2⟩)] = _
  rw [ControlStep_trans_ten]
  norm_num

theorem ControlStep_trans_iff (t : Nat) (ht : t < 400) :
    (ControlStep_trans (t + 10) = ⟨1, 0, 0⟩ ↔ t < 100) ∧
    (ControlStep_trans (t + 10) = ⟨0, 1, 0⟩ ↔ 100 ≤ t ∧ t < 200) ∧
    (ControlStep_trans (t + 10) = ⟨-1, 0, 0⟩ ↔ 200 ≤ t ∧ t < 300) ∧
    (ControlStep_trans (t + 10) = ⟨0, -1, 0⟩ ↔ 300 ≤ t ∧ t < 400) := by
  rw [ControlStep_trans_offset t ht]
  by_cases h1 : t < 100
  · simp only [h1, if_true, CVector3.mk.injEq]
    norm_num
    omega
  · by_cases h2 : t < 200
    · simp only [h1, h2, if_true, if_false, CVector3.mk.injEq]
      norm_num
      omega
    · by_cases h3 : t < 300
      · simp only [h1, h2, h3, if_true, if_false, CVector3.mk.injEq]
        norm_num
        omega
      · simp only [h1, h2, h3, if_false, CVector3.mk.injEq]
        norm_num
        omega

/-- C3: `t` steps after the start of the square pattern (`t` below 400) the
translation is (1,0,0) exactly for `t` in [0,100), (0,1,0) exactly for `t` in
[100,200), (-1,0,0) exactly for `t` in [200,300) and (0,-1,0) exactly for `t`
in [300,400); each direction is chosen at exactly 100 of the 400 steps, and
the four translations add up, coordinate by coordinate, to the zero vector. -/
theorem C3_square_legs :
    (∀ t : Nat, t < 400 →
      (ControlStep_trans (t + 10) = ⟨1, 0, 0⟩ ↔ t < 100) ∧
      (ControlStep_trans (t + 10) = ⟨0, 1, 0⟩ ↔ 100 ≤ t ∧ t < 200) ∧
      (ControlStep_trans (t + 10) = ⟨-1, 0, 0⟩ ↔ 200 ≤ t ∧ t < 300) ∧
      (ControlStep_trans (t + 10) = ⟨0, -1, 0⟩ ↔ 300 ≤ t ∧ t < 400)) ∧
    ((Finset.range 400).filter
        (fun t => ControlStep_trans (t + 10) = ⟨1, 0, 0⟩)).card = 100 ∧
    ((Finset.range 400).filter
        (fun t => ControlStep_trans (t + 10) = ⟨0, 1, 0⟩)).card = 100 ∧
    ((Finset.range 400).filter
        (fun t => ControlStep_trans (t + 10) = ⟨-1, 0, 0⟩)).card = 100 ∧
    ((Finset.range 400).filter
        (fun t => ControlStep_trans (t + 10) = ⟨0, -1, 0⟩)).card = 100 ∧
    (⟨(ControlStep_trans 10).x + (ControlStep_trans 110).x + (ControlStep_trans 210).x
        + (ControlStep_trans 310).x,
      (ControlStep_trans 10).y + (ControlStep_trans 110).y + (ControlStep_trans 210).y
        + (ControlStep_trans 310).y,
      (ControlStep_trans 10).z + (ControlStep_trans 110).z + (ControlStep_trans 210).z
        + (ControlStep_trans 310).z⟩ : CVector3) = ⟨0, 0, 0⟩ := by
  refine ⟨ControlStep_trans_iff, ?_, ?_, ?_, ?_, ?_⟩
  · have : (Finset.range 400).filter
        (fun t => ControlStep_trans (t + 10) = ⟨1, 0, 0⟩) = Finset.Ico 0 100 := by
      ext t
      simp only [Finset.mem_filter, Finset.mem_range, Finset.mem_Ico]
      constructor
      · rintro ⟨ht, h⟩
        exact ⟨Nat.zero_le _, (ControlStep_trans_iff t ht).1.1 h⟩
      · rintro ⟨_, h⟩
        exact ⟨by omega, (ControlStep_trans_iff t (by omega)).1.2 h⟩
    rw [this, Nat.card_Ico]
  · have : (Finset.range 400).filter
        (fun t => ControlStep_trans (t + 10) = ⟨0, 1, 0⟩) = Finset.Ico 100 200 := by
      ext t
      simp only [Finset.mem_filter, Finset.mem_range, Finset.mem_Ico]
      constructor
      · rintro ⟨ht, h⟩
        exact (ControlStep_trans_iff t ht).2.1.1 h
      · rintro h
        exact ⟨by omega, (ControlStep_trans_iff t (by omega)).2.1.2 h⟩
    rw [this, Nat.card_Ico]
  · have : (Finset.range 400).filter
        (fun t => ControlStep_trans (t + 10) = ⟨-1, 0, 0⟩) = Finset.Ico 200 300 := by
      ext t
      simp only [Finset.mem_filter, Finset.mem_range, Finset.mem_Ico]
      constructor
      · rintro ⟨ht, h⟩
        exact (ControlStep_trans_iff t ht).2.2.1.1 h
      · rintro h
        exact ⟨by omega, (ControlStep_trans_iff t (by omega)).2.2.1.2 h⟩
    rw [this, Nat.card_Ico]
  · have : (Finset.range 400).filter
        (fun t => ControlStep_trans (t + 10) = ⟨0, -1, 0⟩) = Finset.Ico 300 400 := by
      ext t
      simp only [Finset.mem_filter, Finset.mem_range, Finset.mem_Ico]
      constructor
      · rintro ⟨ht, h⟩
        exact (ControlStep_trans_iff t ht).2.2.2.1 h
      · rintro h
        exact ⟨by omega, (ControlStep_trans_iff t (by omega)).2.2.2.2 h⟩
    rw [this, Nat.card_Ico]
  · rw [ControlStep_trans_offset 0 (by decide), ControlStep_trans_offset 100 (by decide),
      ControlStep_trans_offset 200 (by decide), ControlStep_trans_offset 300 (by decide)]
    norm_num

/-- C3 at the first and last step of each leg. -/
theorem C3_square_legs_witness :
    (ControlStep_trans 10 = ⟨1, 0, 0⟩ ∧ ControlStep_trans 109 = ⟨1, 0, 0⟩) ∧
    (ControlStep_trans 110 = ⟨0, 1, 0⟩ ∧ ControlStep_trans 209 = ⟨0, 1, 0⟩) ∧
    (ControlStep_trans 210 = ⟨-1, 0, 0⟩ ∧ ControlStep_trans 309 = ⟨-1, 0, 0⟩) ∧
    (ControlStep_trans 310 = ⟨0, -1, 0⟩ ∧ ControlStep_trans 409 = ⟨0, -1, 0⟩) :=
  ⟨⟨(C3_square_legs.1 0 (by decide)).1.2 (by decide),
    (C3_square_legs.1 99 (by decide)).1.2 (by decide)⟩,
   ⟨(C3_square_legs.1 100 (by decide)).2.1.2 (by decide),
    (C3_square_legs.1 199 (by decide)).2.1.2 (by decide)⟩,
   ⟨(C3_square_legs.1 200 (by decide)).2.2.1.2 (by decide),
    (C3_square_legs.1 299 (by decide)).2.2.1.2 (by decide)⟩,
   ⟨(C3_square_legs.1 300 (by decide)).2.2.2.2 (by decide),
    (C3_square_legs.1 399 (by decide)).2.2.2.2 (by decide)⟩⟩

/-! ## Take-off and landing -/

theorem incUInt_of_lt {n : Nat} (h : n + 1 < UINT_RANGE) : incUInt n = n + 1 := by
  unfold incUInt
  exact Nat.mod_eq_of_lt h

theorem altitudeTolerance_pos : 0 < altitudeTolerance := by
  unfold altitudeTolerance
  norm_num

/-- The literal `0.01f` is below 0.01. -/
theorem altitudeTolerance_lt : altitudeTolerance < 1 / 100 := by
  unfold altitudeTolerance
  norm_num

/-- C4: in a take-off step (counter below 10, positioning sensor set) with a
position reading (x,y,z) whose altitude is at least 0.01 away from 2.0,
`TakeOff` sends the absolute command (x,y,2.0) and returns true, and that is
the one command the whole step sends. -/
theorem C4_takeoff_command (rd : Readings) (w : World)
    (hstep : w.ctrl.m_uiCurrentStep < 10) (hp : w.ctrl.m_pcPos = true)
    (hz : 1 / 100 ≤ |rd.Position.z - 2|) :
    TakeOff rd w = .ok (true,
      w.SetAbsolutePosition ⟨rd.Position.x, rd.Position.y, 2⟩) ∧
    (ControlStep rd w).world.cmds =
      w.cmds ++ [Command.SetAbsolutePosition ⟨rd.Position.x, rd.Position.y, 2⟩] := by
  have hz' : ¬ |rd.Position.z - 2| < altitudeTolerance :=
    not_lt.mpr (le_trans (le_of_lt altitudeTolerance_lt) hz)
  constructor
  · rw [TakeOff_ok rd w hp]
    simp only [hz', if_false]
  · rw [ControlStep_world_cmds rd w _
      (ControlStep_act_takeoff rd w (ControlStep_phase_takeoff hstep) hp) hp]
    simp only [hz', if_false]

/-- C4 at counter 0 with position (0,0,0): the command is absolute (0,0,2). -/
theorem C4_takeoff_command_witness :
    (ControlStep ⟨⟨0, 0, 0⟩, 1, []⟩ ⟨⟨true, true, 0, ⟨0, 0, 0⟩⟩, [], []⟩).world.cmds
      = [Command.SetAbsolutePosition ⟨0, 0, 2⟩] :=
  (C4_takeoff_command ⟨⟨0, 0, 0⟩, 1, []⟩ ⟨⟨true, true, 0, ⟨0, 0, 0⟩⟩, [], []⟩
    (by decide) rfl (by norm_num)).2

/-- C5 fails as stated: at counter 9 with position (1, 2, 1079110533/536870912)
the altitude is less than 0.01 away from 2.0 (it is `0.01f` away), and the
step sends the absolute command (1,2,2). -/
theorem C5_tolerance_counterexample :
    |(1079110533 / 536870912 : ℚ) - 2| < 1 / 100 ∧
    (ControlStep ⟨⟨1, 2, 1079110533 / 536870912⟩, 1, []⟩
      ⟨⟨true, true, 9, ⟨0, 0, 0⟩⟩, [], []⟩).world.cmds
      = [Command.SetAbsolutePosition ⟨1, 2, 2⟩] := by
  constructor
  · rw [abs_lt]
    constructor <;> norm_num
  · rw [ControlStep_world_cmds _ _ _
      (ControlStep_act_takeoff _ _ (ControlStep_phase_takeoff (by decide)) rfl) rfl]
    have hz : ¬ |(1079110533 / 536870912 : ℚ) - 2| < altitudeTolerance := by
      unfold altitudeTolerance
      norm_num
      exact le_abs_self _
    simp only [hz, if_false, List.nil_append]

/-- C5, amended: in a take-off step (counter below 10, positioning sensor set)
whose altitude reading is less than `0.01f` = 5368709/536870912 away from 2.0,
`TakeOff` returns false and the step sends no command; with the battery
sensor set the step completes and the counter is one more than before. -/
theorem C5_takeoff_noop (rd : Readings) (w : World)
    (hstep : w.ctrl.m_uiCurrentStep < 10) (hp : w.ctrl.m_pcPos = true)
    (hz : |rd.Position.z - 2| < altitudeTolerance) :
    TakeOff rd w = .ok (false, w) ∧
    (ControlStep rd w).world.cmds = w.cmds ∧
    (w.ctrl.m_pcBattery = true →
      ∃ w', ControlStep rd w = .ok w' ∧ w'.cmds = w.cmds ∧
        w'.ctrl.m_uiCurrentStep = w.ctrl.m_uiCurrentStep + 1) := by
  have hact := ControlStep_act_takeoff rd w (ControlStep_phase_takeoff hstep) hp
  refine ⟨?_, ?_, fun hb => ?_⟩
  · rw [TakeOff_ok rd w hp]
    simp only [hz, if_true]
  · rw [ControlStep_world_cmds rd w _ hact hp]
    simp only [hz, if_true]
  · rw [ControlStep_after_act rd w _ hact hp]
    simp only [hb, hz, if_true]
    refine ⟨_, rfl, rfl, ?_⟩
    exact incUInt_of_lt (by unfold UINT_RANGE; omega)

/-- C5, amended, at counter 9 with altitude 2.0: no command, and the counter
becomes 10. -/
theorem C5_takeoff_noop_witness :
    ∃ w', ControlStep ⟨⟨0, 0, 2⟩, 1, []⟩ ⟨⟨true, true, 9, ⟨0, 0, 0⟩⟩, [], []⟩ = .ok w' ∧
      w'.cmds = [] ∧ w'.ctrl.m_uiCurrentStep = 10 :=
  (C5_takeoff_noop ⟨⟨0, 0, 2⟩, 1, []⟩ ⟨⟨true, true, 9, ⟨0, 0, 0⟩⟩, [], []⟩
    (by decide) rfl (by norm_num [altitudeTolerance])).2.2 rfl

/-- C6 fails as stated: at counter 410 with position (3, 4, 5368709/536870912)
the altitude is below 0.01 in absolute value (it is `0.01f`), and the step
sends the absolute command (3,4,0). -/
theorem C6_tolerance_counterexample :
    |(5368709 / 536870912 : ℚ)| < 1 / 100 ∧
    (ControlStep ⟨⟨3, 4, 5368709 / 536870912⟩, 1, []⟩
      ⟨⟨true, true, 410, ⟨0, 0, 2⟩⟩, [], []⟩).world.cmds
      = [Command.SetAbsolutePosition ⟨3, 4, 0⟩] := by
  constructor
  · rw [abs_lt]
    constructor <;> norm_num
  · rw [ControlStep_world_cmds _ _ _
      (ControlStep_act_land _ _ (ControlStep_phase_land (by decide) (by decide)) rfl) rfl]
    have hz : ¬ |(5368709 / 536870912 : ℚ)| < altitudeTolerance := by
      unfold altitudeTolerance
      norm_num
      exact le_abs_self _
    simp only [hz, if_false, List.nil_append]

/-- C6, amended: in a landing step (counter at least 410, positioning sensor
set) with position reading (x,y,z): when the altitude is below
`0.01f` = 5368709/536870912 in absolute value `Land` returns false and the
step sends no command; otherwise `Land` sends the absolute command (x,y,0)
and returns true, and that is the one command the step sends. -/
theorem C6_land_command (rd : Readings) (w : World)
    (h410 : 410 ≤ w.ctrl.m_uiCurrentStep) (hn : w.ctrl.m_uiCurrentStep < UINT_RANGE)
    (hp : w.ctrl.m_pcPos = true) :
    (|rd.Position.z| < altitudeTolerance →
      Land rd w = .ok (false, w) ∧ (ControlStep rd w).world.cmds = w.cmds) ∧
    (¬ |rd.Position.z| < altitudeTolerance →
      Land rd w = .ok (true,
        w.SetAbsolutePosition ⟨rd.Position.x, rd.Position.y, 0⟩) ∧
      (ControlStep rd w).world.cmds =
        w.cmds ++ [Command.SetAbsolutePosition ⟨rd.Position.x, rd.Position.y, 0⟩]) := by
  have hact := ControlStep_act_land rd w (ControlStep_phase_land h410 hn) hp
  refine ⟨fun hz => ⟨?_, ?_⟩, fun hz => ⟨?_, ?_⟩⟩
  · rw [Land_ok rd w hp]
    simp only [hz, if_true]
  · rw [ControlStep_world_cmds rd w _ hact hp]
    simp only [hz, if_true]
  · rw [Land_ok rd w hp]
    simp only [hz, if_false]
  · rw [ControlStep_world_cmds rd w _ hact hp]
    simp only [hz, if_false]

/-- C6, amended, at counter 410: with position (3,4,2) the command is absolute
(3,4,0); with position (3,4,0) no command is sent. -/
theorem C6_land_command_witness :
    (ControlStep ⟨⟨3, 4, 2⟩, 1, []⟩ ⟨⟨true, true, 410, ⟨0, 0, 2⟩⟩, [], []⟩).world.cmds
      = [Command.SetAbsolutePosition ⟨3, 4, 0⟩] ∧
    (ControlStep ⟨⟨3, 4, 0⟩, 1, []⟩ ⟨⟨true, true, 410, ⟨0, 0, 2⟩⟩, [], []⟩).world.cmds
      = [] :=
  ⟨((C6_land_command ⟨⟨3, 4, 2⟩, 1, []⟩ ⟨⟨true, true, 410, ⟨0, 0, 2⟩⟩, [], []⟩
      (by decide) (by decide) rfl).2 (by norm_num [altitudeTolerance])).2,
   ((C6_land_command ⟨⟨3, 4, 0⟩, 1, []⟩ ⟨⟨true, true, 410, ⟨0, 0, 2⟩⟩, [], []⟩
      (by decide) (by decide) rfl).1 (by norm_num [altitudeTolerance])).2⟩

/-! ## The step counter and the commands of a whole step -/

/-- With the positioning sensor set, the branch of `ControlStep` returns; it
leaves the device pointers and the counter alone and sends at most one
command. -/
theorem ControlStep_act_total (rd : Readings) (w : World) (hp : w.ctrl.m_pcPos = true) :
    ∃ w1, ControlStep_act rd w = .ok w1 ∧
      w1.ctrl.m_pcPos = w.ctrl.m_pcPos ∧ w1.ctrl.m_pcBattery = w.ctrl.m_pcBattery ∧
      w1.ctrl.m_uiCurrentStep = w.ctrl.m_uiCurrentStep ∧
      ∃ l, w1.cmds = w.cmds ++ l ∧ l.length ≤ 1 := by
  cases hph : ControlStep_phase w.ctrl.m_uiCurrentStep
  · refine ⟨_, ControlStep_act_takeoff rd w hph hp, rfl, rfl, rfl, ?_⟩
    by_cases hz : |rd.Position.z - 2| < altitudeTolerance
    · exact ⟨[], by simp only [hz, if_true, List.append_nil], by simp⟩
    · exact ⟨[Command.SetAbsolutePosition ⟨rd.Position.x, rd.Position.y, 2⟩],
        by simp only [hz, if_false], by simp⟩
  · exact ⟨_, ControlStep_act_square rd w hph hp, rfl, rfl, rfl, [_], rfl, by simp⟩
  · refine ⟨_, ControlStep_act_land rd w hph hp, rfl, rfl, rfl, ?_⟩
    by_cases hz : |rd.Position.z| < altitudeTolerance
    · exact ⟨[], by simp only [hz, if_true, List.append_nil], by simp⟩
    · exact ⟨[Command.SetAbsolutePosition ⟨rd.Position.x, rd.Position.y, 0⟩],
        by simp only [hz, if_false], by simp⟩

/-- With both optional sensors set, `ControlStep` returns, with the counter
incremented and the pointers as before. -/
theorem ControlStep_total (rd : Readings) (w : World)
    (hp : w.ctrl.m_pcPos = true) (hb : w.ctrl.m_pcBattery = true) :
    ∃ w', ControlStep rd w = .ok w' ∧
      w'.ctrl.m_pcPos = true ∧ w'.ctrl.m_pcBattery = true ∧
      w'.ctrl.m_uiCurrentStep = incUInt w.ctrl.m_uiCurrentStep := by
  obtain ⟨w1, hact, h1, h2, h3, -⟩ := ControlStep_act_total rd w hp
  rw [ControlStep_after_act rd w w1 hact (h1.trans hp)]
  simp only [h2.trans hb, if_true]
  refine ⟨_, rfl, h1.trans hp, rfl, ?_⟩
  show incUInt w1.ctrl.m_uiCurrentStep = incUInt w.ctrl.m_uiCurrentStep
  rw [h3]

/-- Repeated steps with both optional sensors set all return; the counter
advances by the number of steps as long as it stays in range. -/
theorem run_counter (rds : List Readings) (w : World)
    (hp : w.ctrl.m_pcPos = true) (hb : w.ctrl.m_pcBattery = true)
    (hlen : w.ctrl.m_uiCurrentStep + rds.length < UINT_RANGE) :
    ∃ w', run rds w = .ok w' ∧
      w'.ctrl.m_uiCurrentStep = w.ctrl.m_uiCurrentStep + rds.length := by
  induction rds generalizing w with
  | nil => exact ⟨w, rfl, rfl⟩
  | cons rd rds ih =>
    obtain ⟨w1, hstep, hp1, hb1, hc1⟩ := ControlStep_total rd w hp hb
    simp only [List.length_cons] at hlen
    rw [incUInt_of_lt (by omega)] at hc1
    obtain ⟨w', hrun, hc⟩ := ih w1 hp1 hb1 (by omega)
    refine ⟨w', ?_, by simp only [List.length_cons]; omega⟩
    simp only [run, hstep, ok_bind]
    exact hrun

theorem TakeOff_ctrl (rd : Readings) (w w' : World) (b : Bool)
    (h : TakeOff rd w = .ok (b, w')) : w'.ctrl = w.ctrl := by
  cases hp : w.ctrl.m_pcPos
  · simp [TakeOff, getPosition, hp, error_bind] at h
  · rw [TakeOff_ok rd w hp] at h
    by_cases hz : |rd.Position.z - 2| < altitudeTolerance
    · simp only [hz, if_true, Except.ok.injEq, Prod.mk.injEq] at h
      rw [← h.2]
    · simp only [hz, if_false, Except.ok.injEq, Prod.mk.injEq] at h
      rw [← h.2]; rfl

theorem Land_ctrl (rd : Readings) (w w' : World) (b : Bool)
    (h : Land rd w = .ok (b, w')) : w'.ctrl = w.ctrl := by
  cases hp : w.ctrl.m_pcPos
  · simp [Land, getPosition, hp, error_bind] at h
  · rw [Land_ok rd w hp] at h
    by_cases hz : |rd.Position.z| < altitudeTolerance
    · simp only [hz, if_true, Except.ok.injEq, Prod.mk.injEq] at h
      rw [← h.2]
    · simp only [hz, if_false, Except.ok.injEq, Prod.mk.injEq] at h
      rw [← h.2]; rfl

theorem ControlStep_act_counter (rd : Readings) (w w1 : World)
    (h : ControlStep_act rd w = .ok w1) :
    w1.ctrl.m_uiCurrentStep = w.ctrl.m_uiCurrentStep := by
  cases hp : w.ctrl.m_pcPos
  · rw [ControlStep_act_null rd w hp] at h
    cases h
  · obtain ⟨w2, hact, -, -, h3, -⟩ := ControlStep_act_total rd w hp
    rw [hact] at h
    cases h
    exact h3

theorem Init_counter (r : Robot) (c c' : CCrazyflieSensing) (h : Init r c = some c') :
    c'.m_uiCurrentStep = 0 := by
  unfold Init at h
  split at h
  · simp only [Reset, Option.some.injEq] at h
    rw [← h]
  · cases h

/-- With the positioning sensor pointer `NULL`, `ControlStep` dereferences it
as its first device access and stops there, the world as it was. -/
theorem ControlStep_null (rd : Readings) (w : World) (hp : w.ctrl.m_pcPos = false) :
    ControlStep rd w = .error (Fault.nullPositioningSensor, w) := by
  unfold ControlStep
  rw [ControlStep_act_null rd w hp]
  rfl

/-- C7: the counter is 0 after construction and after `Init`; every call of
`ControlStep` that runs with both optional sensors set, in whatever phase and
for whatever readings, returns with the counter incremented once (the unsigned
increment, which is plus one below the top of the range); after `n` such calls
from a counter of 0 the counter is `n`, for `n` in the counter's range; and
neither `TakeOff`, nor `Land`, nor the branch part of `ControlStep` changes
the counter. -/
theorem C7_step_counter :
    CCrazyflieSensing.new.m_uiCurrentStep = 0 ∧
    (∀ r c c', Init r c = some c' → c'.m_uiCurrentStep = 0) ∧
    (∀ rd w, w.ctrl.m_pcPos = true → w.ctrl.m_pcBattery = true →
      ∃ w', ControlStep rd w = .ok w' ∧
        w'.ctrl.m_uiCurrentStep = incUInt w.ctrl.m_uiCurrentStep ∧
        (w.ctrl.m_uiCurrentStep + 1 < UINT_RANGE →
          w'.ctrl.m_uiCurrentStep = w.ctrl.m_uiCurrentStep + 1)) ∧
    (∀ rds c, c.m_pcPos = true → c.m_pcBattery = true → c.m_uiCurrentStep = 0 →
      rds.length < UINT_RANGE →
      ∃ w', run rds (World.start c) = .ok w' ∧ w'.ctrl.m_uiCurrentStep = rds.length) ∧
    (∀ rd w b w', TakeOff rd w = .ok (b, w') →
      w'.ctrl.m_uiCurrentStep = w.ctrl.m_uiCurrentStep) ∧
    (∀ rd w b w', Land rd w = .ok (b, w') →
      w'.ctrl.m_uiCurrentStep = w.ctrl.m_uiCurrentStep) ∧
    (∀ rd w w1, ControlStep_act rd w = .ok w1 →
      w1.ctrl.m_uiCurrentStep = w.ctrl.m_uiCurrentStep) := by
  refine ⟨rfl, Init_counter, ?_, ?_, ?_, ?_, ControlStep_act_counter⟩
  · intro rd w hp hb
    obtain ⟨w', h, -, -, hc⟩ := ControlStep_total rd w hp hb
    exact ⟨w', h, hc, fun hlt => by rw [hc, incUInt_of_lt hlt]⟩
  · intro rds c hp hb h0 hlen
    obtain ⟨w', h, hc⟩ := run_counter rds (World.start c) hp hb
      (by show c.m_uiCurrentStep + rds.length < UINT_RANGE; omega)
    refine ⟨w', h, ?_⟩
    rw [hc]
    show c.m_uiCurrentStep + rds.length = rds.length
    omega
  · intro rd w b w' h
    rw [TakeOff_ctrl rd w w' b h]
  · intro rd w b w' h
    rw [Land_ctrl rd w w' b h]

/-- C7 on three calls from a freshly initialised controller: they all return
and the counter is 3. -/
theorem C7_step_counter_witness :
    ∃ w', run [⟨⟨0, 0, 0⟩, 1, []⟩, ⟨⟨0, 0, 1⟩, 1, []⟩, ⟨⟨0, 0, 2⟩, 1, []⟩]
        (World.start ⟨true, true, 0, ⟨0, 0, 0⟩⟩) = .ok w' ∧
      w'.ctrl.m_uiCurrentStep = 3 :=
  C7_step_counter.2.2.2.1
    [⟨⟨0, 0, 0⟩, 1, []⟩, ⟨⟨0, 0, 1⟩, 1, []⟩, ⟨⟨0, 0, 2⟩, 1, []⟩]
    ⟨true, true, 0, ⟨0, 0, 0⟩⟩ rfl rfl rfl (by decide)

/-- C8: every call of `ControlStep` sends at most one actuator command.  With
the positioning sensor set, a square-pattern step sends exactly one relative
command, the computed `(r + tr) - p` (also when the vehicle already is at the
leg target, the computed `r + tr`, where the command is the zero vector) and
no absolute one, and a take-off or landing step sends either nothing or
exactly one absolute command, never a relative one. -/
theorem C8_at_most_one_command (rd : Readings) (w : World) :
    (∃ l, (ControlStep rd w).world.cmds = w.cmds ++ l ∧ l.length ≤ 1) ∧
    (w.ctrl.m_pcPos = true →
      (ControlStep_phase w.ctrl.m_uiCurrentStep = Phase.SquareTraverse →
        (ControlStep rd w).world.cmds = w.cmds ++ [Command.SetRelativePosition
          ((w.ctrl.m_cInitialPosition + ControlStep_trans w.ctrl.m_uiCurrentStep : XVector3)
            - rd.Position)] ∧
        ((w.ctrl.m_cInitialPosition + ControlStep_trans w.ctrl.m_uiCurrentStep : XVector3)
            = rd.Position.toX →
          (ControlStep rd w).world.cmds =
            w.cmds ++ [Command.SetRelativePosition (CVector3.toX ⟨0, 0, 0⟩)])) ∧
      (ControlStep_phase w.ctrl.m_uiCurrentStep ≠ Phase.SquareTraverse →
        (ControlStep rd w).world.cmds = w.cmds ∨
        ∃ v, (ControlStep rd w).world.cmds = w.cmds ++ [Command.SetAbsolutePosition v])) := by
  constructor
  · cases hp : w.ctrl.m_pcPos
    · rw [ControlStep_null rd w hp]
      exact ⟨[], by simp [Exec.world], by simp⟩
    · obtain ⟨w1, hact, h1, -, -, l, hl, hlen⟩ := ControlStep_act_total rd w hp
      rw [ControlStep_world_cmds rd w w1 hact (h1.trans hp)]
      exact ⟨l, hl, hlen⟩
  · intro hp
    constructor
    · intro hph
      have hcmd := ControlStep_world_cmds rd w _ (ControlStep_act_square rd w hph hp) hp
      refine ⟨hcmd, fun hat => ?_⟩
      rw [hcmd, hat, CVector3.toX_sub_self]
    · intro hph
      cases hph' : ControlStep_phase w.ctrl.m_uiCurrentStep
      · rw [ControlStep_world_cmds rd w _ (ControlStep_act_takeoff rd w hph' hp) hp]
        by_cases hz : |rd.Position.z - 2| < altitudeTolerance
        · left; simp only [hz, if_true]
        · right
          exact ⟨⟨rd.Position.x, rd.Position.y, 2⟩, by simp only [hz, if_false]⟩
      · exact absurd hph' hph
      · rw [ControlStep_world_cmds rd w _ (ControlStep_act_land rd w hph' hp) hp]
        by_cases hz : |rd.Position.z| < altitudeTolerance
        · left; simp only [hz, if_true]
        · right
          exact ⟨⟨rd.Position.x, rd.Position.y, 0⟩, by simp only [hz, if_false]⟩

/-- C8 at counter 10 with the vehicle already at the leg target (1,0,2): the
step still sends one relative command, the zero vector. -/
theorem C8_at_most_one_command_witness :
    (ControlStep ⟨⟨1, 0, 2⟩, 1, []⟩ ⟨⟨true, true, 10, ⟨0, 0, 2⟩⟩, [], []⟩).world.cmds
      = [Command.SetRelativePosition (CVector3.toX ⟨0, 0, 0⟩)] :=
  (((C8_at_most_one_command ⟨⟨1, 0, 2⟩, 1, []⟩ ⟨⟨true, true, 10, ⟨0, 0, 2⟩⟩, [], []⟩).2
    rfl).1 (ControlStep_phase_square (by decide) (by decide))).2
    (by show ((⟨0, 0, 2⟩ : CVector3) + ControlStep_trans 10 : XVector3)
          = CVector3.toX ⟨1, 0, 2⟩
        rw [ControlStep_trans_ten]
        norm_num [CVector3.add_def, CVector3.toX, roundReal_one, roundReal_zero,
          roundReal_two])

/-! ## Reset and the missing positioning sensor -/

/-- C9 fails as stated: on a controller whose counter is 5 and whose
remembered position is (1,2,3), `Reset` leaves the counter at 5, not 0, and
the remembered position at (1,2,3). -/
theorem C9_reset_counterexample :
    (Reset ⟨true, true, 5, ⟨1, 2, 3⟩⟩).m_uiCurrentStep = 5 ∧
    ¬ (Reset ⟨true, true, 5, ⟨1, 2, 3⟩⟩).m_uiCurrentStep = 0 ∧
    (Reset ⟨true, true, 5, ⟨1, 2, 3⟩⟩).m_cInitialPosition = ⟨1, 2, 3⟩ :=
  ⟨rfl, by decide, rfl⟩

/-- C9, amended: `Reset` is idempotent and leaves the remembered position as
it was; the counter is 0, and the remembered position the zero vector, after
construction, and the counter is 0 after every `Init` that returns. -/
theorem C9_reset_amended :
    (∀ c, Reset (Reset c) = Reset c ∧
      (Reset c).m_cInitialPosition = c.m_cInitialPosition) ∧
    CCrazyflieSensing.new.m_uiCurrentStep = 0 ∧
    CCrazyflieSensing.new.m_cInitialPosition = ⟨0, 0, 0⟩ ∧
    (∀ r c c', Init r c = some c' → c'.m_uiCurrentStep = 0) :=
  ⟨fun _ => ⟨rfl, rfl⟩, rfl, rfl, Init_counter⟩

/-- C9, amended, on a controller with counter 5 that goes through `Init`
again: the counter is 0 afterwards. -/
theorem C9_reset_amended_witness :
    Init ⟨true, true, true, true, true, true⟩ ⟨true, true, 5, ⟨1, 2, 3⟩⟩
      = some ⟨true, true, 0, ⟨1, 2, 3⟩⟩ ∧
    (⟨true, true, 0, ⟨1, 2, 3⟩⟩ : CCrazyflieSensing).m_uiCurrentStep = 0 :=
  ⟨rfl, C9_reset_amended.2.2.2 ⟨true, true, true, true, true, true⟩
    ⟨true, true, 5, ⟨1, 2, 3⟩⟩ ⟨true, true, 0, ⟨1, 2, 3⟩⟩ rfl⟩

/-- C10 fails on the code: on a robot that has every device but the
positioning sensor, `Init` returns with the positioning pointer `NULL`, and a
call of `ControlStep`, at counter 0, 10 or 410, dereferences that pointer as
its first device access.  The call stops there (the model's mark for the
undefined behaviour); no missing-input error is raised, since the code has
none, and nothing has been sent, logged or incremented before. -/
theorem C10_position_null_dereferenced :
    Init ⟨true, true, true, true, false, true⟩ CCrazyflieSensing.new
      = some ⟨false, true, 0, ⟨0, 0, 0⟩⟩ ∧
    ControlStep ⟨⟨0, 0, 0⟩, 1, []⟩ ⟨⟨false, true, 0, ⟨0, 0, 0⟩⟩, [], []⟩
      = .error (Fault.nullPositioningSensor, ⟨⟨false, true, 0, ⟨0, 0, 0⟩⟩, [], []⟩) ∧
    ControlStep ⟨⟨0, 0, 0⟩, 1, []⟩ ⟨⟨false, true, 10, ⟨0, 0, 0⟩⟩, [], []⟩
      = .error (Fault.nullPositioningSensor, ⟨⟨false, true, 10, ⟨0, 0, 0⟩⟩, [], []⟩) ∧
    ControlStep ⟨⟨0, 0, 0⟩, 1, []⟩ ⟨⟨false, true, 410, ⟨0, 0, 0⟩⟩, [], []⟩
      = .error (Fault.nullPositioningSensor, ⟨⟨false, true, 410, ⟨0, 0, 0⟩⟩, [], []⟩) :=
  ⟨rfl, ControlStep_null _ _ rfl, ControlStep_null _ _ rfl, ControlStep_null _ _ rfl⟩

/-! ## Telemetry -/

/-- With the positioning sensor set, the branch of `ControlStep` writes
nothing to `LOG`, and the remembered position afterwards is the position
reading in the take-off branch and the old value in the other two. -/
theorem ControlStep_act_frame (rd : Readings) (w : World) (hp : w.ctrl.m_pcPos = true) :
    ∃ w1, ControlStep_act rd w = .ok w1 ∧ w1.log = w.log ∧
      w1.ctrl.m_pcPos = true ∧ w1.ctrl.m_pcBattery = w.ctrl.m_pcBattery ∧
      w1.ctrl.m_uiCurrentStep = w.ctrl.m_uiCurrentStep ∧
      (ControlStep_phase w.ctrl.m_uiCurrentStep = Phase.Takeoff →
        w1.ctrl.m_cInitialPosition = rd.Position) ∧
      (ControlStep_phase w.ctrl.m_uiCurrentStep ≠ Phase.Takeoff →
        w1.ctrl.m_cInitialPosition = w.ctrl.m_cInitialPosition) := by
  cases hph : ControlStep_phase w.ctrl.m_uiCurrentStep
  · exact ⟨_, ControlStep_act_takeoff rd w hph hp, rfl, hp, rfl, rfl, fun _ => rfl,
      fun h => absurd rfl h⟩
  · exact ⟨_, ControlStep_act_square rd w hph hp, rfl, hp, rfl, rfl,
      (fun h => nomatch h), fun _ => rfl⟩
  · exact ⟨_, ControlStep_act_land rd w hph hp, rfl, hp, rfl, rfl,
      (fun h => nomatch h), fun _ => rfl⟩

/-- The branch of `ControlStep` reads nothing but the position. -/
theorem ControlStep_act_congr (p : CVector3) (b1 b2 : ℚ) (r1 r2 : List (ℚ × ℚ))
    (w : World) :
    ControlStep_act ⟨p, b1, r1⟩ w = ControlStep_act ⟨p, b2, r2⟩ w := by
  simp only [ControlStep_act, TakeOff, Land, getPosition]

/-- With the positioning sensor set and the battery sensor pointer `NULL`,
`ControlStep` runs its branch, prints the position and faults at the battery
printout, before the increment. -/
theorem ControlStep_battery_null (rd : Readings) (w : World)
    (hp : w.ctrl.m_pcPos = true) (hb : w.ctrl.m_pcBattery = false) :
    ∃ w1, ControlStep_act rd w = .ok w1 ∧
      ControlStep rd w = .error (Fault.nullBatterySensor,
        w1.LOG (LogLine.Position rd.Position.x rd.Position.y rd.Position.z)) ∧
      w1.ctrl.m_uiCurrentStep = w.ctrl.m_uiCurrentStep := by
  obtain ⟨w1, hact, -, hp1, hb1, hc, -, -⟩ := ControlStep_act_frame rd w hp
  refine ⟨w1, hact, ?_, hc⟩
  rw [ControlStep_after_act rd w w1 hact hp1]
  simp [hb1.trans hb]

theorem logDistances_four (w : World) (a b c d : ℚ × ℚ) :
    (logDistances w [a, b, c, d]).log =
      w.log ++ [LogLine.FrontDist a.2, LogLine.LeftDist b.2, LogLine.BackDist c.2,
        LogLine.RightDist d.2] := by
  simp [logDistances, World.LOG]

theorem logDistances_other (w : World) (l : List (ℚ × ℚ)) (h : l.length ≠ 4) :
    logDistances w l = w := by
  unfold logDistances
  split
  · exact absurd rfl h
  · rfl

/-- C11 fails on the code: on a robot that has every device but the battery
sensor, `Init` returns with the battery pointer `NULL`, and the first call of
`ControlStep` (position (0,0,0)) sends the take-off command, prints the
position and then faults at the battery printout with the counter still 0,
whereas with the battery sensor set the same call returns with the counter
at 1. -/
theorem C11_battery_null_faults :
    Init ⟨true, true, true, true, true, false⟩ CCrazyflieSensing.new
      = some ⟨true, false, 0, ⟨0, 0, 0⟩⟩ ∧
    ControlStep ⟨⟨0, 0, 0⟩, 1, []⟩ ⟨⟨true, false, 0, ⟨0, 0, 0⟩⟩, [], []⟩
      = .error (Fault.nullBatterySensor,
          ⟨⟨true, false, 0, ⟨0, 0, 0⟩⟩, [Command.SetAbsolutePosition ⟨0, 0, 2⟩],
            [LogLine.Position 0 0 0]⟩) ∧
    (∃ w', ControlStep ⟨⟨0, 0, 0⟩, 1, []⟩ ⟨⟨true, true, 0, ⟨0, 0, 0⟩⟩, [], []⟩ = .ok w' ∧
      w'.ctrl.m_uiCurrentStep = 1) := by
  refine ⟨rfl, ?_, ?_⟩
  · rw [ControlStep_after_act _ _ _
      (ControlStep_act_takeoff _ _ (ControlStep_phase_takeoff (by decide)) rfl) rfl]
    norm_num [World.LOG, altitudeTolerance]
  · obtain ⟨w', h, -, -, hc⟩ := ControlStep_total ⟨⟨0, 0, 0⟩, 1, []⟩
      ⟨⟨true, true, 0, ⟨0, 0, 0⟩⟩, [], []⟩ rfl rfl
    exact ⟨w', h, hc⟩

/-- C12: in a call of `ControlStep` that runs to its end (both optional
sensors set), whatever the ranging readings, the call returns; when the
readings map has exactly four entries the printout is the position, the
battery level and then the front, left, back and right distances, equal to the
first, second, third and fourth entry in iteration order; with any other
number of entries the printout is the position and the battery level only. -/
theorem C12_ranging_telemetry (rd : Readings) (w : World)
    (hp : w.ctrl.m_pcPos = true) (hb : w.ctrl.m_pcBattery = true) :
    ∃ w', ControlStep rd w = .ok w' ∧
      (∀ a b c d, rd.ReadingsMap = [a, b, c, d] →
        w'.log = w.log ++
          [LogLine.Position rd.Position.x rd.Position.y rd.Position.z,
           LogLine.BatteryLevel rd.AvailableCharge,
           LogLine.FrontDist a.2, LogLine.LeftDist b.2, LogLine.BackDist c.2,
           LogLine.RightDist d.2]) ∧
      (rd.ReadingsMap.length ≠ 4 →
        w'.log = w.log ++
          [LogLine.Position rd.Position.x rd.Position.y rd.Position.z,
           LogLine.BatteryLevel rd.AvailableCharge]) := by
  obtain ⟨w1, hact, hlog, hp1, hb1, -, -, -⟩ := ControlStep_act_frame rd w hp
  rw [ControlStep_after_act rd w w1 hact hp1]
  simp only [hb1.trans hb, if_true]
  refine ⟨_, rfl, fun a b c d h4 => ?_, fun hne => ?_⟩
  · show (logDistances _ rd.ReadingsMap).log = _
    rw [h4, logDistances_four]
    simp [World.LOG, hlog]
  · show (logDistances _ rd.ReadingsMap).log = _
    rw [logDistances_other _ _ hne]
    simp [World.LOG, hlog]

/-- C12 on the readings 3.0, 1.5, 2.2, 0.9 (in iteration order): front 3.0,
left 1.5, back 2.2, right 0.9; and on three readings: no distance line. -/
theorem C12_ranging_telemetry_witness :
    (∃ w', ControlStep ⟨⟨0, 0, 0⟩, 1, [(0, 3), (1, 3 / 2), (2, 11 / 5), (3, 9 / 10)]⟩
        ⟨⟨true, true, 0, ⟨0, 0, 0⟩⟩, [], []⟩ = .ok w' ∧
      w'.log = [LogLine.Position 0 0 0, LogLine.BatteryLevel 1, LogLine.FrontDist 3,
        LogLine.LeftDist (3 / 2), LogLine.BackDist (11 / 5), LogLine.RightDist (9 / 10)]) ∧
    (∃ w', ControlStep ⟨⟨0, 0, 0⟩, 1, [(0, 3), (1, 3 / 2), (2, 11 / 5)]⟩
        ⟨⟨true, true, 0, ⟨0, 0, 0⟩⟩, [], []⟩ = .ok w' ∧
      w'.log = [LogLine.Position 0 0 0, LogLine.BatteryLevel 1]) := by
  constructor
  · obtain ⟨w', h, h4, -⟩ := C12_ranging_telemetry
      ⟨⟨0, 0, 0⟩, 1, [(0, 3), (1, 3 / 2), (2, 11 / 5), (3, 9 / 10)]⟩
      ⟨⟨true, true, 0, ⟨0, 0, 0⟩⟩, [], []⟩ rfl rfl
    exact ⟨w', h, h4 _ _ _ _ rfl⟩
  · obtain ⟨w', h, -, h3⟩ := C12_ranging_telemetry
      ⟨⟨0, 0, 0⟩, 1, [(0, 3), (1, 3 / 2), (2, 11 / 5)]⟩
      ⟨⟨true, true, 0, ⟨0, 0, 0⟩⟩, [], []⟩ rfl rfl
    exact ⟨w', h, h3 (by decide)⟩

/-- C13: two calls of `ControlStep` from the same world with the same position
reading, whatever their battery and ranging readings, send the same commands,
end with the same controller state (counter and remembered position
included), and the one returns exactly when the other does. -/
theorem C13_telemetry_no_effect (p : CVector3) (b1 b2 : ℚ) (r1 r2 : List (ℚ × ℚ))
    (w : World) :
    (ControlStep ⟨p, b1, r1⟩ w).world.cmds = (ControlStep ⟨p, b2, r2⟩ w).world.cmds ∧
    (ControlStep ⟨p, b1, r1⟩ w).world.ctrl = (ControlStep ⟨p, b2, r2⟩ w).world.ctrl ∧
    ((∃ w1, ControlStep ⟨p, b1, r1⟩ w = .ok w1) ↔
      (∃ w2, ControlStep ⟨p, b2, r2⟩ w = .ok w2)) := by
  cases hp : w.ctrl.m_pcPos
  · rw [ControlStep_null _ w hp, ControlStep_null _ w hp]
    exact ⟨rfl, rfl, Iff.rfl⟩
  · obtain ⟨w1, hact, -, hp1, -, -, -, -⟩ := ControlStep_act_frame ⟨p, b1, r1⟩ w hp
    have hact2 : ControlStep_act ⟨p, b2, r2⟩ w = .ok w1 := by
      rw [← hact]
      exact ControlStep_act_congr p b2 b1 r2 r1 w
    rw [ControlStep_after_act _ w w1 hact hp1, ControlStep_after_act _ w w1 hact2 hp1]
    cases hb : w1.ctrl.m_pcBattery
    · simp [Exec.world, LOG_cmds, LOG_ctrl]
    · simp [Exec.world]

/-! ## The remembered position -/

theorem ControlStep_phase_ne_takeoff {n : Nat} (h10 : 10 ≤ n) (hn : n < UINT_RANGE) :
    ControlStep_phase n ≠ Phase.Takeoff := by
  rw [ControlStep_phase_eq n hn]
  have h1 : ¬ n < 10 := by omega
  by_cases h2 : n < 410 <;> simp [h1, h2]

/-- The remembered position when a call of `ControlStep` ends (by return or
by the battery fault), with the positioning sensor set: the position reading
after the take-off branch, the old value after the other two. -/
theorem ControlStep_world_initial (rd : Readings) (w : World) (hp : w.ctrl.m_pcPos = true) :
    (ControlStep_phase w.ctrl.m_uiCurrentStep = Phase.Takeoff →
      (ControlStep rd w).world.ctrl.m_cInitialPosition = rd.Position) ∧
    (ControlStep_phase w.ctrl.m_uiCurrentStep ≠ Phase.Takeoff →
      (ControlStep rd w).world.ctrl.m_cInitialPosition = w.ctrl.m_cInitialPosition) := by
  obtain ⟨w1, hact, -, hp1, -, -, h6, h7⟩ := ControlStep_act_frame rd w hp
  rw [ControlStep_after_act rd w w1 hact hp1]
  cases hb : w1.ctrl.m_pcBattery
  · simpa [Exec.world, LOG_ctrl] using And.intro h6 h7
  · simpa [Exec.world] using And.intro h6 h7

/-- Outside the take-off phase a call of `ControlStep` leaves the remembered
position alone, whatever the device pointers. -/
theorem ControlStep_keeps_initial (rd : Readings) (w : World)
    (h10 : 10 ≤ w.ctrl.m_uiCurrentStep) (hn : w.ctrl.m_uiCurrentStep < UINT_RANGE) :
    (ControlStep rd w).world.ctrl.m_cInitialPosition = w.ctrl.m_cInitialPosition := by
  cases hp : w.ctrl.m_pcPos
  · rw [ControlStep_null rd w hp]
    rfl
  · exact (ControlStep_world_initial rd w hp).2 (ControlStep_phase_ne_takeoff h10 hn)

/-- A call of `ControlStep` that returns had both optional sensors set, leaves
them set and has incremented the counter. -/
theorem ControlStep_ok_inv (rd : Readings) (w w' : World) (h : ControlStep rd w = .ok w') :
    w.ctrl.m_pcPos = true ∧ w.ctrl.m_pcBattery = true ∧
    w'.ctrl.m_pcPos = true ∧ w'.ctrl.m_pcBattery = true ∧
    w'.ctrl.m_uiCurrentStep = incUInt w.ctrl.m_uiCurrentStep := by
  cases hp : w.ctrl.m_pcPos
  · rw [ControlStep_null rd w hp] at h
    cases h
  · cases hb : w.ctrl.m_pcBattery
    · obtain ⟨w1, -, hf, -⟩ := ControlStep_battery_null rd w hp hb
      rw [hf] at h
      cases h
    · obtain ⟨w2, h2, hp2, hb2, hc2⟩ := ControlStep_total rd w hp hb
      rw [h2] at h
      cases h
      exact ⟨rfl, rfl, hp2, hb2, hc2⟩

/-- A take-off step with both optional sensors set returns, with the counter
one higher and the position reading remembered. -/
theorem ControlStep_takeoff_total (rd : Readings) (w : World)
    (hstep : w.ctrl.m_uiCurrentStep < 10)
    (hp : w.ctrl.m_pcPos = true) (hb : w.ctrl.m_pcBattery = true) :
    ∃ w', ControlStep rd w = .ok w' ∧
      w'.ctrl.m_pcPos = true ∧ w'.ctrl.m_pcBattery = true ∧
      w'.ctrl.m_uiCurrentStep = w.ctrl.m_uiCurrentStep + 1 ∧
      w'.ctrl.m_cInitialPosition = rd.Position := by
  obtain ⟨w', h, hp', hb', hc⟩ := ControlStep_total rd w hp hb
  have hi := (ControlStep_world_initial rd w hp).1 (ControlStep_phase_takeoff hstep)
  rw [h] at hi
  rw [incUInt_of_lt (by unfold UINT_RANGE; omega)] at hc
  exact ⟨w', h, hp', hb', hc, hi⟩

/-- Repeated steps with both optional sensors set all return and keep the
sensors set; the counter advances by the number of steps as long as it stays
in range. -/
theorem run_total (rds : List Readings) (w : World)
    (hp : w.ctrl.m_pcPos = true) (hb : w.ctrl.m_pcBattery = true)
    (hlen : w.ctrl.m_uiCurrentStep + rds.length < UINT_RANGE) :
    ∃ w', run rds w = .ok w' ∧
      w'.ctrl.m_pcPos = true ∧ w'.ctrl.m_pcBattery = true ∧
      w'.ctrl.m_uiCurrentStep = w.ctrl.m_uiCurrentStep + rds.length := by
  induction rds generalizing w with
  | nil => exact ⟨w, rfl, hp, hb, rfl⟩
  | cons rd rds ih =>
    obtain ⟨w1, hstep, hp1, hb1, hc1⟩ := ControlStep_total rd w hp hb
    simp only [List.length_cons] at hlen
    rw [incUInt_of_lt (by omega)] at hc1
    obtain ⟨w', hrun, hp', hb', hc⟩ := ih w1 hp1 hb1 (by omega)
    refine ⟨w', ?_, hp', hb', by simp only [List.length_cons]; omega⟩
    simp only [run, hstep, ok_bind]
    exact hrun

theorem run_append (a b : List Readings) (w w1 : World) (h : run a w = .ok w1) :
    run (a ++ b) w = run b w1 := by
  induction a generalizing w with
  | nil =>
    simp only [run, Except.ok.injEq] at h
    rw [← h]
    rfl
  | cons rd a ih =>
    cases hcs : ControlStep rd w with
    | error e =>
      simp only [run, hcs, error_bind] at h
      cases h
    | ok w2 =>
      simp only [run, hcs, ok_bind] at h
      simp only [List.cons_append, run, hcs, ok_bind]
      exact ih w2 h

/-- Steps made at counters from 10 up leave the remembered position alone, to
the end of the run or to the first fault. -/
theorem run_keeps_initial (rds : List Readings) (w : World)
    (h : rds ≠ [] → 10 ≤ w.ctrl.m_uiCurrentStep ∧
      w.ctrl.m_uiCurrentStep + rds.length ≤ UINT_RANGE) :
    (run rds w).world.ctrl.m_cInitialPosition = w.ctrl.m_cInitialPosition := by
  induction rds generalizing w with
  | nil => rfl
  | cons rd rds ih =>
    obtain ⟨h10, hlen⟩ := h (List.cons_ne_nil _ _)
    simp only [List.length_cons] at hlen
    have hkeep := ControlStep_keeps_initial rd w h10 (by omega)
    cases hcs : ControlStep rd w with
    | error e =>
      rw [hcs] at hkeep
      simp only [run, hcs, error_bind]
      exact hkeep
    | ok w1 =>
      rw [hcs] at hkeep
      simp only [run, hcs, ok_bind]
      have hc := (ControlStep_ok_inv rd w w1 hcs).2.2.2.2
      rw [ih w1 ?_]
      · exact hkeep
      · intro hne
        have hpos : 0 < rds.length := List.length_pos.mpr hne
        rw [hc, incUInt_of_lt (by omega)]
        constructor <;> omega

/-- C14 fails as stated: from a freshly initialised controller the first call
(position (5,5,0)) sets the remembered position to (5,5,0), and the second
call (position (5,5,1)), still a take-off step, changes it to (5,5,1). -/
theorem C14_reference_counterexample :
    ∃ w1 w2,
      ControlStep ⟨⟨5, 5, 0⟩, 1, []⟩ (World.start ⟨true, true, 0, ⟨0, 0, 0⟩⟩) = .ok w1 ∧
      w1.ctrl.m_cInitialPosition = ⟨5, 5, 0⟩ ∧
      ControlStep ⟨⟨5, 5, 1⟩, 1, []⟩ w1 = .ok w2 ∧
      w2.ctrl.m_cInitialPosition = ⟨5, 5, 1⟩ ∧
      w2.ctrl.m_cInitialPosition ≠ w1.ctrl.m_cInitialPosition := by
  obtain ⟨w1, h1, hp1, hb1, hc1, hi1⟩ := ControlStep_takeoff_total ⟨⟨5, 5, 0⟩, 1, []⟩
    (World.start ⟨true, true, 0, ⟨0, 0, 0⟩⟩) (by decide) rfl rfl
  obtain ⟨w2, h2, -, -, -, hi2⟩ := ControlStep_takeoff_total ⟨⟨5, 5, 1⟩, 1, []⟩ w1
    (by rw [hc1]; decide) hp1 hb1
  refine ⟨w1, w2, h1, hi1, h2, hi2, ?_⟩
  rw [hi1, hi2]
  simp

/-- C14, amended: the remembered position is fixed once the take-off phase is
over.  Every call of `ControlStep` at a counter from 10 up, with any reading,
leaves it as it was, and so does every further run of calls as long as the
counter has not wrapped; a take-off step (counter below 10, positioning sensor
set) overwrites it with its position reading. -/
theorem C14_reference_after_takeoff :
    (∀ rd w, 10 ≤ w.ctrl.m_uiCurrentStep → w.ctrl.m_uiCurrentStep < UINT_RANGE →
      (ControlStep rd w).world.ctrl.m_cInitialPosition = w.ctrl.m_cInitialPosition) ∧
    (∀ rds w, 10 ≤ w.ctrl.m_uiCurrentStep →
      w.ctrl.m_uiCurrentStep + rds.length ≤ UINT_RANGE →
      (run rds w).world.ctrl.m_cInitialPosition = w.ctrl.m_cInitialPosition) ∧
    (∀ rd w, w.ctrl.m_uiCurrentStep < 10 → w.ctrl.m_pcPos = true →
      (ControlStep rd w).world.ctrl.m_cInitialPosition = rd.Position) :=
  ⟨ControlStep_keeps_initial,
   fun rds w h10 hlen => run_keeps_initial rds w (fun _ => ⟨h10, hlen⟩),
   fun rd w hstep hp => (ControlStep_world_initial rd w hp).1 (ControlStep_phase_takeoff hstep)⟩

/-- C14, amended, on three calls from counter 10 with remembered position
(5,5,1) and three different readings: the remembered position is still
(5,5,1). -/
theorem C14_reference_after_takeoff_witness :
    (run [⟨⟨0, 0, 2⟩, 1, []⟩, ⟨⟨1, 0, 2⟩, 1, []⟩, ⟨⟨7, 8, 9⟩, 1, []⟩]
      ⟨⟨true, true, 10, ⟨5, 5, 1⟩⟩, [], []⟩).world.ctrl.m_cInitialPosition = ⟨5, 5, 1⟩ :=
  C14_reference_after_takeoff.2.1
    [⟨⟨0, 0, 2⟩, 1, []⟩, ⟨⟨1, 0, 2⟩, 1, []⟩, ⟨⟨7, 8, 9⟩, 1, []⟩]
    ⟨⟨true, true, 10, ⟨5, 5, 1⟩⟩, [], []⟩ (by decide) (by decide)

/-- C18: the remembered position is written by take-off steps only.  After a
take-off step (counter below 10, positioning sensor set) it is that step's
position reading, also when `TakeOff` sends no command because the altitude is
within tolerance; after ten calls from a freshly initialised controller it is
the reading of the tenth call, the one made at counter 9; and a call at a
counter from 10 up leaves it unchanged. -/
theorem C18_reference_written_by_takeoff :
    (∀ rd w, w.ctrl.m_uiCurrentStep < 10 → w.ctrl.m_pcPos = true →
      (ControlStep rd w).world.ctrl.m_cInitialPosition = rd.Position) ∧
    (∀ rd w, w.ctrl.m_uiCurrentStep < 10 → w.ctrl.m_pcPos = true →
      |rd.Position.z - 2| < altitudeTolerance →
      (ControlStep rd w).world.cmds = w.cmds ∧
      (ControlStep rd w).world.ctrl.m_cInitialPosition = rd.Position) ∧
    (∀ (pre : List Readings) (rd9 : Readings) (c : CCrazyflieSensing),
      c.m_pcPos = true → c.m_pcBattery = true → c.m_uiCurrentStep = 0 →
      pre.length = 9 →
      ∃ w', run (pre ++ [rd9]) (World.start c) = .ok w' ∧
        w'.ctrl.m_uiCurrentStep = 10 ∧ w'.ctrl.m_cInitialPosition = rd9.Position) ∧
    (∀ rd w, 10 ≤ w.ctrl.m_uiCurrentStep → w.ctrl.m_uiCurrentStep < UINT_RANGE →
      (ControlStep rd w).world.ctrl.m_cInitialPosition = w.ctrl.m_cInitialPosition) := by
  refine ⟨fun rd w hstep hp => ?_, fun rd w hstep hp hz => ⟨?_, ?_⟩, ?_,
    ControlStep_keeps_initial⟩
  · exact (ControlStep_world_initial rd w hp).1 (ControlStep_phase_takeoff hstep)
  · rw [ControlStep_world_cmds rd w _
      (ControlStep_act_takeoff rd w (ControlStep_phase_takeoff hstep) hp) hp]
    simp only [hz, if_true]
  · exact (ControlStep_world_initial rd w hp).1 (ControlStep_phase_takeoff hstep)
  · intro pre rd9 c hp hb h0 hlen
    obtain ⟨w1, hrun, hp1, hb1, hc1⟩ := run_total pre (World.start c) hp hb
      (by show c.m_uiCurrentStep + pre.length < UINT_RANGE
          rw [h0, hlen]; decide)
    have hc1' : w1.ctrl.m_uiCurrentStep = 9 := by
      rw [hc1]
      show c.m_uiCurrentStep + pre.length = 9
      omega
    obtain ⟨w', h, -, -, hc, hi⟩ := ControlStep_takeoff_total rd9 w1 (by omega) hp1 hb1
    refine ⟨w', ?_, by omega, hi⟩
    rw [run_append pre [rd9] _ w1 hrun]
    simp only [run, h, ok_bind]

/-- C18 on a take-off step at counter 3 whose altitude reading is already
2.0: no command is sent and the remembered position becomes the reading
(4,5,2). -/
theorem C18_reference_written_by_takeoff_witness :
    (ControlStep ⟨⟨4, 5, 2⟩, 1, []⟩ ⟨⟨true, true, 3, ⟨0, 0, 0⟩⟩, [], []⟩).world.cmds = [] ∧
    (ControlStep ⟨⟨4, 5, 2⟩, 1, []⟩
      ⟨⟨true, true, 3, ⟨0, 0, 0⟩⟩, [], []⟩).world.ctrl.m_cInitialPosition = ⟨4, 5, 2⟩ :=
  C18_reference_written_by_takeoff.2.1 ⟨⟨4, 5, 2⟩, 1, []⟩
    ⟨⟨true, true, 3, ⟨0, 0, 0⟩⟩, [], []⟩ (by decide) rfl (by norm_num [altitudeTolerance])

/-! ## Order of the phases -/

theorem Phase.rank_phase_succ {n : Nat} (hn : n + 1 < UINT_RANGE) :
    (ControlStep_phase n).rank ≤ (ControlStep_phase (n + 1)).rank := by
  rw [ControlStep_phase_eq n (by omega), ControlStep_phase_eq (n + 1) hn]
  by_cases h1 : n + 1 < 10
  · have h0 : n < 10 := by omega
    simp [h0, h1]
  · by_cases h2 : n + 1 < 410
    · by_cases h0 : n < 10
      · simp [h0, h1, h2, Phase.rank]
      · have h3 : n < 410 := by omega
        simp [h0, h1, h2, h3]
    · by_cases h0 : n < 10
      · simp [h0, h1, h2, Phase.rank]
      · by_cases h3 : n < 410 <;> simp [h0, h1, h2, h3, Phase.rank]

/-- While the counter does not wrap, the branches taken by a run of calls
come in the order take-off, square pattern, landing, and none comes before
the branch of the first call. -/
theorem phases_sorted (rds : List Readings) (w : World)
    (h : w.ctrl.m_uiCurrentStep + rds.length ≤ UINT_RANGE) :
    List.Pairwise (fun a b => a.rank ≤ b.rank) (phases rds w) ∧
    ∀ p ∈ phases rds w, (ControlStep_phase w.ctrl.m_uiCurrentStep).rank ≤ p.rank := by
  induction rds generalizing w with
  | nil => simp [phases]
  | cons rd rds ih =>
    simp only [List.length_cons] at h
    cases hcs : ControlStep rd w with
    | error e => simp [phases, hcs]
    | ok w1 =>
      simp only [phases, hcs]
      by_cases hlt : w.ctrl.m_uiCurrentStep + 1 < UINT_RANGE
      · have hc := (ControlStep_ok_inv rd w w1 hcs).2.2.2.2
        rw [incUInt_of_lt hlt] at hc
        obtain ⟨hpw, hmem⟩ := ih w1 (by omega)
        have hstep := Phase.rank_phase_succ hlt
        rw [← hc] at hstep
        refine ⟨List.pairwise_cons.mpr ⟨fun p hp => le_trans hstep (hmem p hp), hpw⟩, ?_⟩
        intro p hp
        rcases List.mem_cons.mp hp with rfl | hp'
        · exact le_refl _
        · exact le_trans hstep (hmem p hp')
      · have hnil : rds = [] := List.length_eq_zero.mp (by omega)
        subst hnil
        simp [phases]

theorem rank_land {p : Phase} (h : Phase.Land.rank ≤ p.rank) : p = Phase.Land := by
  cases p <;> simp [Phase.rank] at h ⊢

/-- C15 fails as stated: from a freshly initialised controller with both
optional sensors set, the first `2 ^ 32 - 1` calls all return and leave the
counter at `2 ^ 32 - 1`; the next call runs the landing branch and wraps the
counter to 0, so the call after it runs the take-off branch again. -/
theorem C15_wrap_counterexample :
    ∃ w1 w2,
      run (List.replicate (UINT_RANGE - 1) ⟨⟨0, 0, 0⟩, 1, []⟩)
        (World.start ⟨true, true, 0, ⟨0, 0, 0⟩⟩) = .ok w1 ∧
      ControlStep_phase w1.ctrl.m_uiCurrentStep = Phase.Land ∧
      ControlStep ⟨⟨0, 0, 0⟩, 1, []⟩ w1 = .ok w2 ∧
      ControlStep_phase w2.ctrl.m_uiCurrentStep = Phase.Takeoff := by
  obtain ⟨w1, hrun, hp1, hb1, hc1⟩ :=
    run_total (List.replicate (UINT_RANGE - 1) ⟨⟨0, 0, 0⟩, 1, []⟩)
      (World.start ⟨true, true, 0, ⟨0, 0, 0⟩⟩) rfl rfl
      (by rw [List.length_replicate]
          show 0 + (UINT_RANGE - 1) < UINT_RANGE
          unfold UINT_RANGE; omega)
  rw [List.length_replicate] at hc1
  have hc1' : w1.ctrl.m_uiCurrentStep = UINT_RANGE - 1 := by
    rw [hc1]
    show 0 + (UINT_RANGE - 1) = UINT_RANGE - 1
    omega
  obtain ⟨w2, h2, -, -, hc2⟩ := ControlStep_total ⟨⟨0, 0, 0⟩, 1, []⟩ w1 hp1 hb1
  have hc2' : w2.ctrl.m_uiCurrentStep = 0 := by
    rw [hc2, hc1']
    decide
  refine ⟨w1, w2, hrun, ?_, h2, ?_⟩
  · rw [hc1']
    exact ControlStep_phase_land (by decide) (by decide)
  · rw [hc2']
    exact ControlStep_phase_takeoff (by decide)

/-- C15, amended: along every sequence of at most `2 ^ 32` calls of
`ControlStep` from a controller whose counter is 0, with any inputs, the
branches taken come in the order take-off, square pattern, landing, none
revisited once left; in particular every call after one that took the landing
branch takes the landing branch. -/
theorem C15_phase_order (rds : List Readings) (c : CCrazyflieSensing)
    (h0 : c.m_uiCurrentStep = 0) (hlen : rds.length ≤ UINT_RANGE) :
    List.Pairwise (fun a b => a.rank ≤ b.rank) (phases rds (World.start c)) ∧
    List.Pairwise (fun a b => a = Phase.Land → b = Phase.Land)
      (phases rds (World.start c)) := by
  have hs := (phases_sorted rds (World.start c)
    (by show c.m_uiCurrentStep + rds.length ≤ UINT_RANGE; omega)).1
  refine ⟨hs, hs.imp ?_⟩
  intro a b hab ha
  subst ha
  exact rank_land hab

/-- C15, amended, on a run of 412 calls from a freshly initialised controller,
which goes through all three branches. -/
theorem C15_phase_order_witness :
    List.Pairwise (fun a b => a = Phase.Land → b = Phase.Land)
      (phases (List.replicate 412 ⟨⟨0, 0, 0⟩, 1, []⟩)
        (World.start ⟨true, true, 0, ⟨0, 0, 0⟩⟩)) :=
  (C15_phase_order (List.replicate 412 ⟨⟨0, 0, 0⟩, 1, []⟩) ⟨true, true, 0, ⟨0, 0, 0⟩⟩ rfl
    (by rw [List.length_replicate]; decide)).2

/-! ## The last square step and the length of the square pattern -/

/-- C16 fails as stated: at counter 409 the translation is not (-1,0,0). -/
theorem C16_last_leg_counterexample : ControlStep_trans 409 ≠ ⟨-1, 0, 0⟩ := by
  rw [ControlStep_trans_offset 399 (by decide)]
  simp

/-- C16, amended: at counter 409, the last square step (399 steps after the
start of the pattern), the translation chosen by `ControlStep` is (0,-1,0),
the fourth leg. -/
theorem C16_last_leg :
    subUInt 409 (toUInt nInitSteps) = 399 ∧ ControlStep_trans 409 = ⟨0, -1, 0⟩ := by
  refine ⟨by decide, ?_⟩
  rw [ControlStep_trans_offset 399 (by decide)]
  simp

/-- C17 fails on the code: at counters 210 and 409 `ControlStep` still takes
the square-pattern branch (at 210, with remembered position and reading both
(0,0,2), it sends the relative command (-1,0,0)), and the landing branch is
first taken at counter 410: the pattern lasts 400 steps, not the 200 of the
comment. -/
theorem C17_square_lasts_400 :
    ControlStep_phase 210 = Phase.SquareTraverse ∧
    ControlStep_phase 409 = Phase.SquareTraverse ∧
    ControlStep_phase 410 = Phase.Land ∧
    (ControlStep ⟨⟨0, 0, 2⟩, 1, []⟩ ⟨⟨true, true, 210, ⟨0, 0, 2⟩⟩, [], []⟩).world.cmds
      = [Command.SetRelativePosition (CVector3.toX ⟨-1, 0, 0⟩)] := by
  refine ⟨ControlStep_phase_square (by decide) (by decide),
    ControlStep_phase_square (by decide) (by decide),
    ControlStep_phase_land (by decide) (by decide), ?_⟩
  rw [ControlStep_world_cmds _ _ _
    (ControlStep_act_square _ _ (ControlStep_phase_square (by decide) (by decide)) rfl) rfl]
  show [] ++ [Command.SetRelativePosition
    (((⟨0, 0, 2⟩ : CVector3) + ControlStep_trans 210 : XVector3) - (⟨0, 0, 2⟩ : CVector3))]
    = _
  rw [ControlStep_trans_offset 200 (by decide)]
  norm_num [CVector3.add_def, XVector3.sub_def, CVector3.toX, XReal.fin_sub,
    roundReal_neg_one, roundReal_zero, roundReal_two]

/-! ## The unsigned subtraction -/

/-- C19: for every value of the 32-bit counter, once the take-off test
`m_uiCurrentStep < nInitSteps` has failed the counter is at least 10, the
unsigned difference `m_uiCurrentStep - nInitSteps` equals the difference over
the integers, and its comparisons with 400, 100, 200 and 300 agree with the
comparisons over the integers; the translation is computed in the
square-pattern branch only, where the counter is at least 10; and the branch
chosen is the one the tests over the integers choose. -/
theorem C19_no_underflow (n : Nat) (hn : n < UINT_RANGE) :
    (¬ n < toUInt nInitSteps →
      10 ≤ n ∧
      (subUInt n (toUInt nInitSteps) : Int) = (n : Int) - 10 ∧
      (subUInt n (toUInt nInitSteps) < toUInt nTotalSteps ↔ (n : Int) - 10 < 400) ∧
      (subUInt n (toUInt nInitSteps) < toUInt (Int.tdiv nTotalSteps 4)
        ↔ (n : Int) - 10 < 100) ∧
      (subUInt n (toUInt nInitSteps) < toUInt (Int.tdiv (2 * nTotalSteps) 4)
        ↔ (n : Int) - 10 < 200) ∧
      (subUInt n (toUInt nInitSteps) < toUInt (Int.tdiv (3 * nTotalSteps) 4)
        ↔ (n : Int) - 10 < 300)) ∧
    (ControlStep_phase n = Phase.SquareTraverse → 10 ≤ n) ∧
    ControlStep_phase n =
      (if (n : Int) < 10 then Phase.Takeoff
       else if (n : Int) - 10 < 400 then Phase.SquareTraverse else Phase.Land) := by
  refine ⟨fun h => ?_, fun h => ?_, ?_⟩
  · rw [toUInt_nInitSteps] at h
    have h10 : 10 ≤ n := by omega
    rw [toUInt_nInitSteps, toUInt_nTotalSteps, toUInt_quarter, toUInt_half,
      toUInt_three_quarters, subUInt_of_le h10 hn]
    refine ⟨h10, by omega, ?_, ?_, ?_, ?_⟩ <;> omega
  · by_contra hlt
    rw [ControlStep_phase_takeoff (by omega)] at h
    cases h
  · rw [ControlStep_phase_eq n hn]
    by_cases h1 : n < 10
    · have h1' : (n : Int) < 10 := by omega
      simp [h1, h1']
    · have h1' : ¬ (n : Int) < 10 := by omega
      by_cases h2 : n < 410
      · have h2' : (n : Int) - 10 < 400 := by omega
        simp [h1, h1', h2, h2']
      · have h2' : ¬ (n : Int) - 10 < 400 := by omega
        simp [h1, h1', h2, h2']

/-- C19 at the smallest counter that passes the take-off test, 10, and at the
largest counter value, `2 ^ 32 - 1`; at counter 5, where the subtraction is
not evaluated, it would have wrapped to 4294967291. -/
theorem C19_no_underflow_witness :
    (subUInt 10 (toUInt nInitSteps) : Int) = 0 ∧
    (subUInt 4294967295 (toUInt nInitSteps) : Int) = 4294967285 ∧
    ¬ subUInt 4294967295 (toUInt nInitSteps) < toUInt nTotalSteps ∧
    subUInt 5 (toUInt nInitSteps) = 4294967291 :=
  ⟨((C19_no_underflow 10 (by decide)).1 (by decide)).2.1,
   ((C19_no_underflow 4294967295 (by decide)).1 (by decide)).2.1,
   fun h => absurd (((C19_no_underflow 4294967295 (by decide)).1 (by decide)).2.2.1.mp h)
     (by decide),
   by decide⟩

end Crazyflie
